import Mathlib

/-!
# Verification of the PLUS interpreter core (PROJECT2)

Shallow embedding of the big-integer kernel (`bigint.c`), the table-driven
lexer (`lexer.c`), the tree-walking evaluator (`interpreter.c`) and the
LR(1) table builder and parser driver (`parser.c`, grammar from `main.c`),
together with theorems settling the frozen claims about them.

Machine integers are modelled as `Nat`/`Int` with explicit `% 2^64`
reductions where the C code relies on fixed-width arithmetic.
-/

namespace Plus

/-! ## BigInt kernel (bigint.c)

`BigInt` is a sign-magnitude integer: `NUM_LIMBS` unsigned 64-bit words in
little-endian order plus a sign that is `1` or `-1`.  Limb lists are kept as
`List Nat`; well-formed values have length `NUM_LIMBS` and every limb below
`2^64`.  The C functions write through out-parameters; here each one returns
its result. -/

/-- `2^64`, the limb base (`unsigned long long` arithmetic). -/
def WORD : Nat := 2 ^ 64

/-- `#define NUM_LIMBS 6` from bigint.h. -/
def NUM_LIMBS : Nat := 6

/-- `#define MAX_BIGINT_STRING_LEN 102` from bigint.h. -/
def MAX_BIGINT_STRING_LEN : Nat := 102

structure BigInt where
  limbs : List Nat
  sign : Int
  deriving Repr, DecidableEq

/-- Well-formedness of a limb vector: length `NUM_LIMBS`, every limb `< 2^64`. -/
def limbsWF (l : List Nat) : Prop := l.length = NUM_LIMBS ∧ ∀ x ∈ l, x < WORD

/-- Little-endian value of a limb vector. -/
def limbsVal : List Nat → Nat
  | [] => 0
  | l :: ls => l + WORD * limbsVal ls

/-- `big_int_zero`: all limbs zero, sign `1`. -/
def big_int_zero : BigInt := ⟨List.replicate NUM_LIMBS 0, 1⟩

/-- The `is_zero` scan used by `big_int_normalize` and `big_int_to_string`:
true iff every limb is zero. -/
def isZeroLimbs (l : List Nat) : Bool := l.all (· == 0)

/-- `big_int_abs_compare`, which walks the limbs from most significant to
least: here on the reversed (most-significant-first) lists. -/
def absCompareRev : List Nat → List Nat → Int
  | a :: as, b :: bs =>
      if a > b then 1 else if a < b then -1 else absCompareRev as bs
  | _, _ => 0

/-- `big_int_abs_compare(a, b)`: `0` if `|a|=|b|`, `1` if `|a|>|b|`, `-1` if
`|a|<|b|`; independent of the signs. -/
def big_int_abs_compare (a b : BigInt) : Int :=
  absCompareRev a.limbs.reverse b.limbs.reverse

/-- The carry loop of `big_int_abs_add`: `sum = a[i] + b[i] + carry`,
`result[i] = sum % 2^64`, `carry = sum >> 64`.  The loop runs over the
`NUM_LIMBS` words only; a carry out of the last word is not returned. -/
def absAddLoop : List Nat → List Nat → Nat → List Nat
  | a :: as, b :: bs, c =>
      let sum := a + b + c
      (sum % WORD) :: absAddLoop as bs (sum / WORD)
  | _, _, _ => []

/-- `big_int_abs_add` on limb vectors (`result = |a| + |b|`); the C function
only writes `result->limbs`. -/
def absAdd (a b : List Nat) : List Nat := absAddLoop a b 0

/-- The borrow loop of `big_int_abs_sub`: `diff = a[i] - b[i] - borrow` in
128-bit signed arithmetic; if negative, add `2^64` and set borrow. -/
def absSubLoop : List Nat → List Nat → Nat → List Nat
  | a :: as, b :: bs, brw =>
      let diff : Int := (a : Int) - (b : Int) - (brw : Int)
      if diff < 0 then (diff + (WORD : Int)).toNat :: absSubLoop as bs 1
      else diff.toNat :: absSubLoop as bs 0
  | _, _, _ => []

/-- `big_int_abs_sub` on limb vectors (`result = |a| - |b|`, assumes
`|a| >= |b|`). -/
def absSub (a b : List Nat) : List Nat := absSubLoop a b 0

/-- `big_int_normalize`: if the magnitude is zero, force the sign to `1`. -/
def big_int_normalize (n : BigInt) : BigInt :=
  if isZeroLimbs n.limbs then ⟨n.limbs, 1⟩ else n

/-- `big_int_add`: same signs do a magnitude add and keep the sign; different
signs subtract the smaller magnitude from the larger and take the larger's
sign; the result is normalized. -/
def big_int_add (a b : BigInt) : BigInt :=
  let r : BigInt :=
    if a.sign = b.sign then ⟨absAdd a.limbs b.limbs, a.sign⟩
    else
      let cmp := big_int_abs_compare a b
      if cmp ≥ 0 then ⟨absSub a.limbs b.limbs, a.sign⟩
      else ⟨absSub b.limbs a.limbs, b.sign⟩
  big_int_normalize r

/-- The negation used inside `big_int_sub`: copy `b` and flip its sign. -/
def bigIntNegate (b : BigInt) : BigInt := ⟨b.limbs, -b.sign⟩

/-- `big_int_sub(a, b) = big_int_add(a, -b)`. -/
def big_int_sub (a b : BigInt) : BigInt := big_int_add a (bigIntNegate b)

/-- `big_int_from_long_long`: zero, then put `|val|` in limb 0 with the sign
of `val`. -/
def big_int_from_long_long (v : Int) : BigInt :=
  ⟨v.natAbs :: List.replicate (NUM_LIMBS - 1) 0, if v < 0 then -1 else 1⟩

/-- The multiply-by-10 pass inside `big_int_from_string`:
`product = limbs[k] * 10 + carry`, keep `product % 2^64`, carry
`product >> 64`; the final carry is discarded with the limbs exhausted. -/
def mul10Loop : List Nat → Nat → List Nat
  | [], _ => []
  | l :: ls, c =>
      let p := l * 10 + c
      (p % WORD) :: mul10Loop ls (p / WORD)

/-- The digit loop of `big_int_from_string`: for each character, multiply the
accumulator by 10 and add the digit (via `big_int_from_long_long` and
`big_int_abs_add`); a non-digit character aborts (`none`, the C code prints
an error and zeroes the result). -/
def fromStringLoop : List Char → List Nat → Option (List Nat)
  | [], acc => some acc
  | c :: cs, acc =>
      if c < '0' ∨ '9' < c then none
      else
        let temp := mul10Loop acc 0
        let digit := c.toNat - '0'.toNat
        fromStringLoop cs (absAdd temp (digit :: List.replicate (NUM_LIMBS - 1) 0))

/-- The sign handling at the top of `big_int_from_string`: a leading `-`
selects sign `-1` and skips one character, a leading `+` skips one
character, anything else keeps sign `1`. -/
def splitSign : List Char → Int × List Char
  | '-' :: rest => (-1, rest)
  | '+' :: rest => (1, rest)
  | s => (1, s)

/-- `big_int_from_string`: optional leading `-` or `+`, then the digit loop;
on an invalid character the result is zeroed; otherwise the parsed sign is
installed and the value normalized. -/
def big_int_from_string (s : List Char) : BigInt :=
  let signAndRest := splitSign s
  match fromStringLoop signAndRest.2 (List.replicate NUM_LIMBS 0) with
  | none => big_int_zero
  | some limbs => big_int_normalize ⟨limbs, signAndRest.1⟩

/-- One divide-by-10 pass of `big_int_to_string`, walking the limbs from most
significant to least with a running remainder:
`current = (remainder << 64) | limb`, new limb `current / 10`, remainder
`current % 10`.  Takes and returns most-significant-first limbs. -/
def divmod10Loop : Nat → List Nat → Nat × List Nat
  | r, [] => (r, [])
  | r, l :: ls =>
      let cur := r * WORD + l
      let res := divmod10Loop (cur % 10) ls
      (res.1, cur / 10 :: res.2)

/-- The digit-collection loop of `big_int_to_string`: extract decimal digits
least significant first (prepending builds the final most-significant-first
order that the C code obtains by reversing its buffer), stopping when the
value is exhausted or `MAX_BIGINT_STRING_LEN` digits have been written. -/
def toStringLoop : Nat → List Nat → List Char → List Char
  | 0, _, acc => acc
  | cap + 1, limbs, acc =>
      let step := divmod10Loop 0 limbs.reverse
      let q := step.2.reverse
      let acc2 := Char.ofNat (step.1 + 48) :: acc
      if isZeroLimbs q then acc2 else toStringLoop cap q acc2

/-- `big_int_to_string`: `"0"` for a zero magnitude; otherwise the collected
digits (at most `MAX_BIGINT_STRING_LEN` of them), preceded by `-` for a
negative sign. -/
def big_int_to_string (n : BigInt) : List Char :=
  if isZeroLimbs n.limbs then ['0']
  else
    let digits := toStringLoop MAX_BIGINT_STRING_LEN n.limbs []
    if n.sign = -1 then '-' :: digits else digits

example : big_int_to_string (big_int_from_string "123".data) = "123".data := by decide
example : big_int_to_string (big_int_from_string "-7".data) = "-7".data := by decide
example : big_int_to_string (big_int_from_string "-0".data) = "0".data := by decide
example : big_int_from_string "000123".data = big_int_from_string "123".data := by decide

/-! ### Arithmetic lemmas about the limb loops -/

lemma word_pos : 0 < WORD := by decide

/-- Recombination of a low digit and a reduced high part under a combined
modulus: for `a < B`, `a + B * (y % M) = (a + B * y) % (B * M)`. -/
lemma low_high_mod (B M a y : Nat) (hB : 0 < B) (ha : a < B) :
    a + B * (y % M) = (a + B * y) % (B * M) := by
  rcases Nat.eq_zero_or_pos M with hM | hM
  · subst hM; simp
  · have hy : y % M + M * (y / M) = y := Nat.mod_add_div y M
    have expand : a + B * y = a + B * (y % M) + (B * M) * (y / M) := by
      calc a + B * y = a + B * (y % M + M * (y / M)) := by rw [hy]
        _ = a + B * (y % M) + (B * M) * (y / M) := by ring
    rw [expand, Nat.add_mul_mod_self_left]
    refine (Nat.mod_eq_of_lt ?_).symm
    have h1 : y % M < M := Nat.mod_lt _ hM
    have h2 : B * (y % M) + B ≤ B * M := by
      calc B * (y % M) + B = B * (y % M + 1) := by ring
        _ ≤ B * M := Nat.mul_le_mul_left B h1
    omega

/-- The carry loop of `big_int_abs_add` computes the sum of the magnitudes
modulo `2^(64 * number of words)`: the carry is threaded through every word
and the final carry is dropped. -/
lemma limbsVal_absAddLoop : ∀ (a b : List Nat) (c : Nat), a.length = b.length →
    limbsVal (absAddLoop a b c) = (limbsVal a + limbsVal b + c) % WORD ^ a.length
  | [], [], c, _ => by simp [absAddLoop, limbsVal, Nat.mod_one]
  | [], _ :: _, _, h => by simp at h
  | _ :: _, [], _, h => by simp at h
  | a :: as, b :: bs, c, h => by
      have hlen : as.length = bs.length := by simpa using h
      have ih := limbsVal_absAddLoop as bs ((a + b + c) / WORD) hlen
      simp only [absAddLoop, limbsVal, List.length_cons]
      rw [ih]
      have hmod : (a + b + c) % WORD < WORD := Nat.mod_lt _ word_pos
      rw [low_high_mod WORD (WORD ^ as.length) _ _ word_pos hmod]
      have hrec : (a + b + c) % WORD + WORD * ((a + b + c) / WORD) = a + b + c :=
        Nat.mod_add_div _ _

      have : (a + b + c) % WORD + WORD * (limbsVal as + limbsVal bs + (a + b + c) / WORD)
          = a + WORD * limbsVal as + (b + WORD * limbsVal bs) + c := by
        calc (a + b + c) % WORD + WORD * (limbsVal as + limbsVal bs + (a + b + c) / WORD)
            = ((a + b + c) % WORD + WORD * ((a + b + c) / WORD))
              + WORD * limbsVal as + WORD * limbsVal bs := by ring
          _ = a + WORD * limbsVal as + (b + WORD * limbsVal bs) + c := by rw [hrec]; ring
      rw [this, pow_succ, Nat.mul_comm (WORD ^ as.length) WORD]

/-- `big_int_abs_add` wraps modulo `2^384` on six-word magnitudes. -/
lemma limbsVal_absAdd (a b : List Nat) (ha : a.length = NUM_LIMBS)
    (hb : b.length = NUM_LIMBS) :
    limbsVal (absAdd a b) = (limbsVal a + limbsVal b) % 2 ^ 384 := by
  have h := limbsVal_absAddLoop a b 0 (by rw [ha, hb])
  simpa [absAdd, ha, WORD, NUM_LIMBS, ← pow_mul] using h

/-- Comparing a magnitude with itself yields `0`. -/
lemma absCompareRev_self : ∀ l : List Nat, absCompareRev l l = 0
  | [] => rfl
  | a :: as => by simp [absCompareRev, absCompareRev_self as]

/-- Subtracting a magnitude from itself yields the all-zero magnitude. -/
lemma absSubLoop_self : ∀ l : List Nat, absSubLoop l l 0 = List.replicate l.length 0
  | [] => rfl
  | a :: as => by
      simp [absSubLoop, absSubLoop_self as, List.replicate_succ]

lemma isZeroLimbs_replicate (n : Nat) : isZeroLimbs (List.replicate n 0) = true := by
  simp [isZeroLimbs, List.all_eq_true]

/-! ### Claims C5 and C9 -/

/-- Magnitude `2^384 - 1` (all six words maximal). -/
def maxMagnitude : List Nat := List.replicate NUM_LIMBS (WORD - 1)

/-- Magnitude `1`. -/
def oneMagnitude : List Nat := 1 :: List.replicate (NUM_LIMBS - 1) 0

/-- C5 counterexample: adding `1` to the maximal magnitude produces exactly
the same output as adding `0` to `0` — the all-zero magnitude — although the
former overflows (the true sum is `2^384`) and the latter does not.  The
carry out of the last word leaves no trace in the result, and
`big_int_abs_add` has no other output, so the overflow is silently dropped
rather than reported. -/
theorem absolute_add_overflow_is_silent :
    absAdd maxMagnitude oneMagnitude
        = absAdd (List.replicate NUM_LIMBS 0) (List.replicate NUM_LIMBS 0) ∧
    limbsVal maxMagnitude + limbsVal oneMagnitude = 2 ^ 384 ∧
    limbsVal (List.replicate NUM_LIMBS 0) + limbsVal (List.replicate NUM_LIMBS 0) = 0 := by
  refine ⟨by decide, by decide, by decide⟩

/-- C5 (amended): `big_int_abs_add` propagates the carry through all six
words, but a carry out of the most significant word is discarded: the result
is the magnitude sum reduced modulo `2^384`, with no overflow indication. -/
theorem absolute_add_carry_propagates_and_wraps (a b : BigInt)
    (ha : a.limbs.length = NUM_LIMBS) (hb : b.limbs.length = NUM_LIMBS) :
    limbsVal (absAdd a.limbs b.limbs) = (limbsVal a.limbs + limbsVal b.limbs) % 2 ^ 384 :=
  limbsVal_absAdd a.limbs b.limbs ha hb

/-- Witness for the amended C5 theorem at a concrete input. -/
theorem absolute_add_carry_propagates_and_wraps_witness :
    limbsVal (absAdd (⟨maxMagnitude, 1⟩ : BigInt).limbs (⟨oneMagnitude, 1⟩ : BigInt).limbs)
      = (limbsVal (⟨maxMagnitude, 1⟩ : BigInt).limbs
          + limbsVal (⟨oneMagnitude, 1⟩ : BigInt).limbs) % 2 ^ 384 :=
  absolute_add_carry_propagates_and_wraps ⟨maxMagnitude, 1⟩ ⟨oneMagnitude, 1⟩
    (by decide) (by decide)

/-- C9: every `BigInt` produced by the signed operations `big_int_add` and
`big_int_sub` satisfies the invariant that a zero magnitude carries positive
sign (both end in `big_int_normalize`); and for every `BigInt` `a` of
canonical sign and width, `SignedAdd(a, -a)` is exactly the canonical zero
(all-zero magnitude, sign `+1`). -/
theorem signed_ops_zero_positive_and_add_neg_self :
    (∀ a b : BigInt, isZeroLimbs (big_int_add a b).limbs → (big_int_add a b).sign = 1) ∧
    (∀ a b : BigInt, isZeroLimbs (big_int_sub a b).limbs → (big_int_sub a b).sign = 1) ∧
    (∀ a : BigInt, a.sign = 1 ∨ a.sign = -1 → a.limbs.length = NUM_LIMBS →
      big_int_add a (bigIntNegate a) = big_int_zero) := by
  have hnorm : ∀ n : BigInt, isZeroLimbs (big_int_normalize n).limbs →
      (big_int_normalize n).sign = 1 := by
    intro n h
    unfold big_int_normalize at *
    by_cases hz : isZeroLimbs n.limbs
    · simp [hz]
    · simp [hz] at h ⊢
  refine ⟨fun a b h => hnorm _ h, fun a b h => hnorm _ h, fun a hs hlen => ?_⟩
  have hsignne : ¬ a.sign = (bigIntNegate a).sign := by
    rcases hs with h1 | h1 <;> simp [bigIntNegate, h1]
  have hcmp : big_int_abs_compare a (bigIntNegate a) = 0 := by
    simp [big_int_abs_compare, bigIntNegate, absCompareRev_self]
  unfold big_int_add
  simp only [hsignne, if_false, hcmp]
  have hsub : absSub a.limbs (bigIntNegate a).limbs = List.replicate NUM_LIMBS 0 := by
    simp [absSub, bigIntNegate, absSubLoop_self, hlen]
  simp [hsub, big_int_normalize, isZeroLimbs_replicate, big_int_zero]

/-! ### Decimal strings: specification-side notions

`digitsNat`, `validDecimal` and `canonicalize` formalize the spec's "valid
decimal string" and its "canonical form" (no redundant leading zeros, `"0"`
for zero, a leading `-` only for negatives); they are used to state the
codec claims, not taken from the C source. -/

/-- The digit test used by the conversion loop: not (`c < '0'` or `'9' < c`). -/
def isDigitChar (c : Char) : Prop := ¬(c < '0' ∨ '9' < c)

instance (c : Char) : Decidable (isDigitChar c) := by unfold isDigitChar; infer_instance

/-- Numeric value of a digit character (`c - '0'`). -/
def dval (c : Char) : Nat := c.toNat - 48

/-- Value of a most-significant-first digit string. -/
def digitsNat : List Char → Nat
  | [] => 0
  | c :: cs => dval c * 10 ^ cs.length + digitsNat cs

/-- A valid decimal string: an optional sign followed by one or more digits. -/
def validDecimal (s : List Char) : Prop :=
  (splitSign s).2 ≠ [] ∧ ∀ c ∈ (splitSign s).2, isDigitChar c

instance (s : List Char) : Decidable (validDecimal s) := by
  unfold validDecimal; infer_instance

/-- Canonical form of a decimal string: drop a `+`, drop redundant leading
zeros, render zero (also `-0`) as `"0"`, keep `-` only on nonzero negatives. -/
def canonicalize (s : List Char) : List Char :=
  if (splitSign s).2.dropWhile (· = '0') = [] then ['0']
  else if (splitSign s).1 = -1 then '-' :: (splitSign s).2.dropWhile (· = '0')
  else (splitSign s).2.dropWhile (· = '0')

/-- The integer value denoted by a decimal string. -/
def decimalValue (s : List Char) : Int :=
  (splitSign s).1 * (digitsNat (splitSign s).2 : Int)

lemma isDigitChar_toNat {c : Char} (h : isDigitChar c) :
    48 ≤ c.toNat ∧ c.toNat ≤ 57 := by
  unfold isDigitChar at h
  push_neg at h
  obtain ⟨h1, h2⟩ := h
  rw [Char.le_def, UInt32.le_def, BitVec.le_def] at h1 h2
  exact ⟨h1, h2⟩

/-- `sign * (values)` returned by `splitSign` is `1` or `-1`. -/
lemma splitSign_sign (s : List Char) : (splitSign s).1 = 1 ∨ (splitSign s).1 = -1 := by
  unfold splitSign
  split <;> simp

/-! ### Correctness of the string-to-BigInt direction -/

lemma limbsVal_eq_zero_iff : ∀ l : List Nat, isZeroLimbs l = true ↔ limbsVal l = 0
  | [] => by simp [isZeroLimbs, limbsVal]
  | x :: xs => by
      have ih := limbsVal_eq_zero_iff xs
      simp only [isZeroLimbs, limbsVal, List.all_cons, Bool.and_eq_true, beq_iff_eq] at *
      constructor
      · rintro ⟨h1, h2⟩; simp [h1, ih.mp h2]
      · intro h
        have hx : x = 0 := by omega
        have hv : WORD * limbsVal xs = 0 := by omega
        have : limbsVal xs = 0 := by
          rcases Nat.mul_eq_zero.mp hv with h' | h'
          · exact absurd h' (by decide)
          · exact h'
        exact ⟨hx, ih.mpr this⟩

lemma mul10Loop_length : ∀ (ls : List Nat) (c : Nat), (mul10Loop ls c).length = ls.length
  | [], _ => rfl
  | l :: ls, c => by simp [mul10Loop, mul10Loop_length ls]

lemma mul10Loop_bounded : ∀ (ls : List Nat) (c : Nat), ∀ x ∈ mul10Loop ls c, x < WORD
  | l :: ls, c, x, hx => by
      simp only [mul10Loop, List.mem_cons] at hx
      rcases hx with h | h
      · subst h; exact Nat.mod_lt _ word_pos
      · exact mul10Loop_bounded ls _ x h

lemma limbsVal_mul10Loop : ∀ (ls : List Nat) (c : Nat),
    limbsVal (mul10Loop ls c) = (10 * limbsVal ls + c) % WORD ^ ls.length
  | [], c => by simp [mul10Loop, limbsVal, Nat.mod_one]
  | l :: ls, c => by
      have ih := limbsVal_mul10Loop ls ((l * 10 + c) / WORD)
      simp only [mul10Loop, limbsVal, List.length_cons]
      rw [ih]
      have hmod : (l * 10 + c) % WORD < WORD := Nat.mod_lt _ word_pos
      rw [low_high_mod WORD (WORD ^ ls.length) _ _ word_pos hmod]
      have hrec : (l * 10 + c) % WORD + WORD * ((l * 10 + c) / WORD) = l * 10 + c :=
        Nat.mod_add_div _ _
      have heq : (l * 10 + c) % WORD + WORD * (10 * limbsVal ls + (l * 10 + c) / WORD)
          = 10 * (l + WORD * limbsVal ls) + c := by
        calc (l * 10 + c) % WORD + WORD * (10 * limbsVal ls + (l * 10 + c) / WORD)
            = ((l * 10 + c) % WORD + WORD * ((l * 10 + c) / WORD))
              + WORD * (10 * limbsVal ls) := by ring
          _ = 10 * (l + WORD * limbsVal ls) + c := by rw [hrec]; ring
      rw [heq, pow_succ, Nat.mul_comm (WORD ^ ls.length) WORD]

lemma absAddLoop_length : ∀ (a b : List Nat) (c : Nat), a.length = b.length →
    (absAddLoop a b c).length = a.length
  | [], [], _, _ => rfl
  | [], _ :: _, _, h => by simp at h
  | _ :: _, [], _, h => by simp at h
  | a :: as, b :: bs, c, h => by
      have : as.length = bs.length := by simpa using h
      simp [absAddLoop, absAddLoop_length as bs _ this]

lemma absAddLoop_bounded : ∀ (a b : List Nat) (c : Nat), ∀ x ∈ absAddLoop a b c, x < WORD
  | a :: as, b :: bs, c, x, hx => by
      simp only [absAddLoop, List.mem_cons] at hx
      rcases hx with h | h
      · subst h; exact Nat.mod_lt _ word_pos
      · exact absAddLoop_bounded as bs _ x h

/-- One digit step of `big_int_from_string` on the loop invariant. -/
lemma fromStringLoop_spec : ∀ (ds : List Char) (acc : List Nat),
    (∀ c ∈ ds, isDigitChar c) → acc.length = NUM_LIMBS → (∀ x ∈ acc, x < WORD) →
    limbsVal acc * 10 ^ ds.length + digitsNat ds < WORD ^ NUM_LIMBS →
    ∃ out, fromStringLoop ds acc = some out ∧ out.length = NUM_LIMBS ∧
      (∀ x ∈ out, x < WORD) ∧
      limbsVal out = limbsVal acc * 10 ^ ds.length + digitsNat ds
  | [], acc, _, hlen, hbd, _ => ⟨acc, rfl, hlen, hbd, by simp [digitsNat]⟩
  | c :: cs, acc, hdig, hlen, hbd, hrange => by
      have hc : isDigitChar c := hdig c (List.mem_cons_self c cs)
      have hcs : ∀ x ∈ cs, isDigitChar x := fun x hx => hdig x (List.mem_cons_of_mem c hx)
      obtain ⟨hc48, hc57⟩ := isDigitChar_toNat hc
      -- the new accumulator and its value
      set a := limbsVal acc with ha
      have hd9 : dval c ≤ 9 := by unfold dval; omega
      have hpow : (10 : Nat) ^ (c :: cs).length = 10 ^ cs.length * 10 := by
        simp [pow_succ]
      have hval_cons : digitsNat (c :: cs) = dval c * 10 ^ cs.length + digitsNat cs := rfl
      have hstep_le : (10 * a + dval c) * 10 ^ cs.length + digitsNat cs
          = a * 10 ^ (c :: cs).length + digitsNat (c :: cs) := by
        rw [hpow, hval_cons]; ring
      have hstep_lt : (10 * a + dval c) * 10 ^ cs.length + digitsNat cs
          < WORD ^ NUM_LIMBS := by rw [hstep_le]; exact hrange
      have h10a_le : 10 * a + dval c ≤ (10 * a + dval c) * 10 ^ cs.length + digitsNat cs := by
        have : 1 ≤ (10 : Nat) ^ cs.length := Nat.one_le_pow _ _ (by norm_num)
        calc 10 * a + dval c ≤ (10 * a + dval c) * 10 ^ cs.length :=
              Nat.le_mul_of_pos_right _ (by omega)
          _ ≤ _ := Nat.le_add_right _ _
      have h10a_lt : 10 * a + dval c < WORD ^ NUM_LIMBS := lt_of_le_of_lt h10a_le hstep_lt
      -- value of the multiply-by-10 pass
      have hmul_val : limbsVal (mul10Loop acc 0) = 10 * a := by
        rw [limbsVal_mul10Loop, hlen]
        exact Nat.mod_eq_of_lt (by omega)
      have hmul_len : (mul10Loop acc 0).length = NUM_LIMBS := by
        rw [mul10Loop_length, hlen]
      -- value of the digit add
      have hdig_len : (dval c :: List.replicate (NUM_LIMBS - 1) 0).length = NUM_LIMBS := by
        simp [NUM_LIMBS]
      have hdig_val : limbsVal (dval c :: List.replicate (NUM_LIMBS - 1) 0) = dval c := by
        have : limbsVal (List.replicate (NUM_LIMBS - 1) 0) = 0 :=
          (limbsVal_eq_zero_iff _).mp (isZeroLimbs_replicate _)
        simp [limbsVal, this]
      have hadd_val : limbsVal (absAdd (mul10Loop acc 0)
          (dval c :: List.replicate (NUM_LIMBS - 1) 0)) = 10 * a + dval c := by
        have h := limbsVal_absAddLoop (mul10Loop acc 0)
          (dval c :: List.replicate (NUM_LIMBS - 1) 0) 0 (by rw [hmul_len, hdig_len])
        rw [absAdd, h, hmul_val, hdig_val, hmul_len]
        exact Nat.mod_eq_of_lt (by omega)
      have hadd_len : (absAdd (mul10Loop acc 0)
          (dval c :: List.replicate (NUM_LIMBS - 1) 0)).length = NUM_LIMBS := by
        rw [absAdd, absAddLoop_length _ _ _ (by rw [hmul_len, hdig_len]), hmul_len]
      have hadd_bd := absAddLoop_bounded (mul10Loop acc 0)
        (dval c :: List.replicate (NUM_LIMBS - 1) 0) 0
      obtain ⟨out, hout, h1, h2, h3⟩ := fromStringLoop_spec cs
        (absAdd (mul10Loop acc 0) (dval c :: List.replicate (NUM_LIMBS - 1) 0))
        hcs hadd_len hadd_bd (by rw [hadd_val]; exact hstep_lt)
      refine ⟨out, ?_, h1, h2, ?_⟩
      · simp only [fromStringLoop]
        rw [if_neg hc]
        exact hout
      · rw [h3, hadd_val, hstep_le]

/-- `big_int_from_string` on a valid in-range string: six bounded limbs whose
value is the digit string's value, and the parsed sign unless the value is
zero (then the sign is normalized to `1`). -/
lemma big_int_from_string_spec (s : List Char) (h : validDecimal s)
    (hrange : digitsNat (splitSign s).2 < WORD ^ NUM_LIMBS) :
    (big_int_from_string s).limbs.length = NUM_LIMBS ∧
    (∀ x ∈ (big_int_from_string s).limbs, x < WORD) ∧
    limbsVal (big_int_from_string s).limbs = digitsNat (splitSign s).2 ∧
    (big_int_from_string s).sign =
      (if digitsNat (splitSign s).2 = 0 then 1 else (splitSign s).1) := by
  obtain ⟨hne, hdigits⟩ := h
  have hz : limbsVal (List.replicate NUM_LIMBS 0) = 0 :=
    (limbsVal_eq_zero_iff _).mp (isZeroLimbs_replicate _)
  obtain ⟨out, hout, hlen, hbd, hval⟩ := fromStringLoop_spec (splitSign s).2
    (List.replicate NUM_LIMBS 0) hdigits (by simp)
    (fun x hx => by rw [List.eq_of_mem_replicate hx]; exact word_pos)
    (by rw [hz]; simpa using hrange)
  rw [hz, Nat.zero_mul, Nat.zero_add] at hval
  have hnorm : big_int_from_string s = big_int_normalize ⟨out, (splitSign s).1⟩ := by
    unfold big_int_from_string
    simp only [hout]
  rw [hnorm]
  unfold big_int_normalize
  dsimp only
  by_cases hzero : digitsNat (splitSign s).2 = 0
  · have hiz : isZeroLimbs out = true := (limbsVal_eq_zero_iff out).mpr (by rw [hval, hzero])
    rw [if_pos hiz]
    exact ⟨hlen, hbd, hval, by simp [hzero]⟩
  · have hiz : ¬ isZeroLimbs out = true := by
      rw [limbsVal_eq_zero_iff out, hval]; exact hzero
    rw [if_neg hiz]
    exact ⟨hlen, hbd, hval, by simp [hzero]⟩

/-! ### Correctness of the BigInt-to-string direction -/

/-- Value of a most-significant-first limb list threaded through a high
accumulator, as walked by the division pass of `big_int_to_string`. -/
def msbVal : Nat → List Nat → Nat
  | r, [] => r
  | r, l :: ls => msbVal (r * WORD + l) ls

lemma msbVal_affine : ∀ (ls : List Nat) (r : Nat),
    msbVal r ls = r * WORD ^ ls.length + msbVal 0 ls
  | [], r => by simp [msbVal]
  | l :: ls, r => by
      have h1 := msbVal_affine ls (r * WORD + l)
      have h2 := msbVal_affine ls l
      show msbVal (r * WORD + l) ls = r * WORD ^ (ls.length + 1) + msbVal (0 * WORD + l) ls
      rw [Nat.zero_mul, Nat.zero_add, h1, h2, pow_succ]
      ring

lemma msbVal_append (x : Nat) : ∀ (ls : List Nat) (r : Nat),
    msbVal r (ls ++ [x]) = msbVal r ls * WORD + x
  | [], r => rfl
  | l :: ls, r => by
      show msbVal (r * WORD + l) (ls ++ [x]) = msbVal (r * WORD + l) ls * WORD + x
      exact msbVal_append x ls _

lemma limbsVal_eq_msbVal_reverse : ∀ l : List Nat, limbsVal l = msbVal 0 l.reverse
  | [] => rfl
  | x :: xs => by
      rw [List.reverse_cons, msbVal_append, ← limbsVal_eq_msbVal_reverse xs]
      show x + WORD * limbsVal xs = limbsVal xs * WORD + x
      ring

lemma divmod10Loop_length : ∀ (ls : List Nat) (r : Nat),
    (divmod10Loop r ls).2.length = ls.length
  | [], _ => rfl
  | l :: ls, r => by simp [divmod10Loop, divmod10Loop_length ls]

/-- The division pass of `big_int_to_string` divides the six-word value by 10
and leaves the decimal remainder, keeping all words below `2^64`. -/
lemma divmod10Loop_spec : ∀ (ls : List Nat) (r : Nat), (∀ x ∈ ls, x < WORD) → r < 10 →
    (divmod10Loop r ls).1 = msbVal r ls % 10 ∧
    msbVal 0 (divmod10Loop r ls).2 = msbVal r ls / 10 ∧
    (∀ x ∈ (divmod10Loop r ls).2, x < WORD)
  | [], r, _, hr => by
      refine ⟨?_, ?_, by simp [divmod10Loop]⟩
      · simp [divmod10Loop, msbVal, Nat.mod_eq_of_lt hr]
      · simp [divmod10Loop, msbVal, Nat.div_eq_of_lt hr]
  | l :: ls, r, hbd, hr => by
      have hl : l < WORD := hbd l (List.mem_cons_self l ls)
      have hbd' : ∀ x ∈ ls, x < WORD := fun x hx => hbd x (List.mem_cons_of_mem l hx)
      have hr' : (r * WORD + l) % 10 < 10 := Nat.mod_lt _ (by norm_num)
      obtain ⟨ih1, ih2, ih3⟩ := divmod10Loop_spec ls ((r * WORD + l) % 10) hbd' hr'
      have hstep : divmod10Loop r (l :: ls)
          = ((divmod10Loop ((r * WORD + l) % 10) ls).1,
             (r * WORD + l) / 10 :: (divmod10Loop ((r * WORD + l) % 10) ls).2) := rfl
      have hmsb : msbVal r (l :: ls) = msbVal (r * WORD + l) ls := rfl
      rw [hstep, hmsb]
      refine ⟨?_, ?_, ?_⟩
      · rw [ih1, msbVal_affine ls ((r * WORD + l) % 10), msbVal_affine ls (r * WORD + l)]
        have hmc : Nat.ModEq 10 ((r * WORD + l) % 10) (r * WORD + l) :=
          Nat.mod_modEq (r * WORD + l) 10
        exact (hmc.mul_right (WORD ^ ls.length)).add_right (msbVal 0 ls)
      · have h0 : msbVal 0 ((r * WORD + l) / 10 :: (divmod10Loop ((r * WORD + l) % 10) ls).2)
            = msbVal ((r * WORD + l) / 10) (divmod10Loop ((r * WORD + l) % 10) ls).2 := by
          show msbVal (0 * WORD + (r * WORD + l) / 10) _ = _
          rw [Nat.zero_mul, Nat.zero_add]
        rw [h0, msbVal_affine _ ((r * WORD + l) / 10), ih2,
          msbVal_affine ls ((r * WORD + l) % 10), divmod10Loop_length,
          msbVal_affine ls (r * WORD + l)]
        have hdm : 10 * ((r * WORD + l) / 10) + (r * WORD + l) % 10 = r * WORD + l :=
          Nat.div_add_mod (r * WORD + l) 10
        rw [← Nat.mul_add_div (show 0 < 10 by norm_num)]
        congr 1
        calc 10 * ((r * WORD + l) / 10 * WORD ^ ls.length)
              + ((r * WORD + l) % 10 * WORD ^ ls.length + msbVal 0 ls)
            = (10 * ((r * WORD + l) / 10) + (r * WORD + l) % 10) * WORD ^ ls.length
              + msbVal 0 ls := by ring
          _ = (r * WORD + l) * WORD ^ ls.length + msbVal 0 ls := by rw [hdm]
      · intro x hx
        simp only [List.mem_cons] at hx
        rcases hx with h | h
        · subst h
          have hcurlt : r * WORD + l < 10 * WORD := by
            calc r * WORD + l < r * WORD + WORD := by omega
              _ = (r + 1) * WORD := by ring
              _ ≤ 10 * WORD := Nat.mul_le_mul_right WORD (by omega)
          exact (Nat.div_lt_iff_lt_mul (by norm_num)).mpr
            (by rw [Nat.mul_comm WORD 10]; exact hcurlt)
        · exact ih3 x h

/-- The digit-collection loop of `big_int_to_string` produces exactly the
most-significant-first decimal digits of the value when the digit cap is not
exceeded. -/
lemma toStringLoop_spec : ∀ (cap : Nat) (limbs : List Nat) (acc : List Char),
    (∀ x ∈ limbs, x < WORD) → limbsVal limbs ≠ 0 →
    (Nat.digits 10 (limbsVal limbs)).length ≤ cap →
    toStringLoop cap limbs acc =
      ((Nat.digits 10 (limbsVal limbs)).map (fun d => Char.ofNat (d + 48))).reverse ++ acc
  | 0, limbs, acc, _, hnz, hcap => by
      have : Nat.digits 10 (limbsVal limbs) ≠ [] := Nat.digits_ne_nil_iff_ne_zero.mpr hnz
      have : 0 < (Nat.digits 10 (limbsVal limbs)).length := List.length_pos.mpr this
      omega
  | cap + 1, limbs, acc, hbd, hnz, hcap => by
      have hrevbd : ∀ x ∈ limbs.reverse, x < WORD := fun x hx =>
        hbd x (List.mem_reverse.mp hx)
      obtain ⟨h1, h2, h3⟩ := divmod10Loop_spec limbs.reverse 0 hrevbd (by norm_num)
      have hmv : msbVal 0 limbs.reverse = limbsVal limbs :=
        (limbsVal_eq_msbVal_reverse limbs).symm
      rw [hmv] at h1 h2
      have hqval : limbsVal (divmod10Loop 0 limbs.reverse).2.reverse
          = limbsVal limbs / 10 := by
        rw [limbsVal_eq_msbVal_reverse, List.reverse_reverse, h2]
      have hqbd : ∀ x ∈ (divmod10Loop 0 limbs.reverse).2.reverse, x < WORD := fun x hx =>
        h3 x (List.mem_reverse.mp hx)
      have hdigits : Nat.digits 10 (limbsVal limbs)
          = limbsVal limbs % 10 :: Nat.digits 10 (limbsVal limbs / 10) :=
        Nat.digits_def' (by norm_num) (Nat.pos_of_ne_zero hnz)
      have hstep : toStringLoop (cap + 1) limbs acc
          = (if isZeroLimbs (divmod10Loop 0 limbs.reverse).2.reverse then
              Char.ofNat ((divmod10Loop 0 limbs.reverse).1 + 48) :: acc
            else toStringLoop cap (divmod10Loop 0 limbs.reverse).2.reverse
              (Char.ofNat ((divmod10Loop 0 limbs.reverse).1 + 48) :: acc)) := rfl
      rw [hstep, h1]
      by_cases hq : limbsVal limbs / 10 = 0
      · have hqz : isZeroLimbs (divmod10Loop 0 limbs.reverse).2.reverse = true := by
          rw [limbsVal_eq_zero_iff, hqval, hq]
        rw [if_pos hqz, hdigits, hq]
        simp
      · have hqz : ¬ isZeroLimbs (divmod10Loop 0 limbs.reverse).2.reverse = true := by
          rw [limbsVal_eq_zero_iff, hqval]; exact hq
        rw [if_neg hqz]
        have hlen' : (Nat.digits 10 (limbsVal limbs / 10)).length ≤ cap := by
          have : (Nat.digits 10 (limbsVal limbs)).length
              = (Nat.digits 10 (limbsVal limbs / 10)).length + 1 := by
            rw [hdigits]; simp
          omega
        rw [toStringLoop_spec cap _ _ hqbd (by rw [hqval]; exact hq) (by rw [hqval]; exact hlen')]
        rw [hqval, hdigits]
        simp

/-- `big_int_to_string` on a nonzero in-cap value: an optional minus sign
followed by the most-significant-first decimal digits. -/
lemma big_int_to_string_spec (n : BigInt) (hbd : ∀ x ∈ n.limbs, x < WORD)
    (hnz : limbsVal n.limbs ≠ 0)
    (hlen : (Nat.digits 10 (limbsVal n.limbs)).length ≤ MAX_BIGINT_STRING_LEN) :
    big_int_to_string n = (if n.sign = -1 then ['-'] else []) ++
      ((Nat.digits 10 (limbsVal n.limbs)).map (fun d => Char.ofNat (d + 48))).reverse := by
  unfold big_int_to_string
  have hiz : ¬ isZeroLimbs n.limbs = true := by rw [limbsVal_eq_zero_iff]; exact hnz
  rw [if_neg hiz]
  simp only [toStringLoop_spec _ _ _ hbd hnz hlen, List.append_nil]
  by_cases hs : n.sign = -1 <;> simp [hs]

/-! ### Digit strings and canonical forms -/

lemma digitsNat_eq_ofDigits : ∀ ds : List Char,
    digitsNat ds = Nat.ofDigits 10 ((ds.map dval).reverse)
  | [] => by simp [digitsNat, Nat.ofDigits]
  | c :: cs => by
      have ih := digitsNat_eq_ofDigits cs
      show dval c * 10 ^ cs.length + digitsNat cs = _
      rw [List.map_cons, List.reverse_cons, Nat.ofDigits_append, ih]
      simp [Nat.ofDigits]
      ring

/-- A nonempty all-digit string whose first digit is not `'0'` is recovered
exactly by rendering the decimal digits of its value. -/
lemma digits_of_digit_string (c : Char) (cs : List Char)
    (hdig : ∀ x ∈ c :: cs, isDigitChar x) (hc : c ≠ '0') :
    ((Nat.digits 10 (digitsNat (c :: cs))).map (fun d => Char.ofNat (d + 48))).reverse
      = c :: cs := by
  have hlt : ∀ l ∈ ((c :: cs).map dval).reverse, l < 10 := by
    intro l hl
    rw [List.mem_reverse, List.mem_map] at hl
    obtain ⟨x, hx, rfl⟩ := hl
    have := isDigitChar_toNat (hdig x hx)
    unfold dval; omega
  have hLne : ((c :: cs).map dval).reverse ≠ [] := by simp
  have hlast : ∀ h : ((c :: cs).map dval).reverse ≠ [],
      ((c :: cs).map dval).reverse.getLast h ≠ 0 := by
    intro h
    have hgl : ((c :: cs).map dval).reverse.getLast? = some (dval c) := by
      rw [List.getLast?_reverse]
      simp
    rw [List.getLast?_eq_getLast_of_ne_nil h] at hgl
    have hval : ((c :: cs).map dval).reverse.getLast h = dval c := by
      exact Option.some_injective _ hgl
    rw [hval]
    obtain ⟨h48, _⟩ := isDigitChar_toNat (hdig c (List.mem_cons_self c cs))
    have : c.toNat ≠ 48 := by
      intro hcon
      apply hc
      have hofn := Char.ofNat_toNat c
      rw [hcon] at hofn
      rw [← hofn]
    unfold dval; omega
  rw [digitsNat_eq_ofDigits, Nat.digits_ofDigits 10 (by norm_num) _ hlt hlast]
  rw [List.map_reverse, List.reverse_reverse, List.map_map]
  have : ∀ x ∈ c :: cs, (fun d => Char.ofNat (d + 48)) (dval x) = x := by
    intro x hx
    obtain ⟨h48, _⟩ := isDigitChar_toNat (hdig x hx)
    show Char.ofNat (dval x + 48) = x
    unfold dval
    rw [show x.toNat - 48 + 48 = x.toNat by omega, Char.ofNat_toNat]
  calc ((c :: cs).map fun x => (fun d => Char.ofNat (d + 48)) (dval x))
      = (c :: cs).map id := List.map_congr_left this
    _ = c :: cs := List.map_id _

lemma digitsNat_dropWhile_zeros : ∀ ds : List Char,
    digitsNat (ds.dropWhile (· = '0')) = digitsNat ds
  | [] => rfl
  | c :: cs => by
      by_cases h : c = '0'
      · subst h
        rw [List.dropWhile_cons_of_pos (by simp), digitsNat_dropWhile_zeros cs]
        show digitsNat cs = dval '0' * 10 ^ cs.length + digitsNat cs
        have h0 : dval '0' = 0 := by decide
        rw [h0]
        simp
      · rw [List.dropWhile_cons_of_neg (by simp [h])]

/-- Dropping the leading zeros of a digit string either empties it or leaves
a string starting with a nonzero digit. -/
lemma dropWhile_zero_head : ∀ ds : List Char, ds.dropWhile (· = '0') = [] ∨
    ∃ c cs, ds.dropWhile (· = '0') = c :: cs ∧ c ≠ '0'
  | [] => Or.inl rfl
  | c :: cs => by
      by_cases hc : c = '0'
      · rw [List.dropWhile_cons_of_pos (by simp [hc])]
        exact dropWhile_zero_head cs
      · rw [List.dropWhile_cons_of_neg (by simp [hc])]
        exact Or.inr ⟨c, cs, rfl, hc⟩

lemma digitsNat_head_pos (c : Char) (cs : List Char) (hc : isDigitChar c)
    (hne : c ≠ '0') : digitsNat (c :: cs) ≠ 0 := by
  obtain ⟨h48, _⟩ := isDigitChar_toNat hc
  have hd : dval c ≠ 0 := by
    have : c.toNat ≠ 48 := by
      intro hcon
      apply hne
      have hofn := Char.ofNat_toNat c
      rw [hcon] at hofn
      rw [← hofn]
    unfold dval; omega
  show dval c * 10 ^ cs.length + digitsNat cs ≠ 0
  have h1 : 0 < (10 : Nat) ^ cs.length := Nat.pos_pow_of_pos _ (by norm_num)
  have := Nat.mul_pos (Nat.pos_of_ne_zero hd) h1
  omega

/-- C6 counterexample input: `1` followed by 102 zeros — a valid decimal
string whose value `10^102` is representable in six 64-bit words. -/
def s103 : List Char := '1' :: List.replicate 102 '0'

set_option maxRecDepth 8000 in
/-- C6 counterexample: `10^102` is in the representable range, parses exactly,
but the 102-digit cap of `big_int_to_string` truncates its 103 digits: the
round trip prints 102 zeros instead of the canonical form of the input, so
the round-trip law fails at an in-range value. -/
theorem decimal_roundtrip_fails_within_representable_range :
    validDecimal s103 ∧
    digitsNat (splitSign s103).2 < 2 ^ 384 ∧
    big_int_to_string (big_int_from_string s103) = List.replicate 102 '0' ∧
    canonicalize s103 = s103 ∧
    big_int_to_string (big_int_from_string s103) ≠ canonicalize s103 :=
  ⟨by decide, by decide, by decide, by decide, by decide⟩

/-- C6 (amended): the decimal round trip yields the canonical form for every
valid decimal string whose magnitude needs at most `MAX_BIGINT_STRING_LEN`
(102) digits — in particular for every literal of up to 100 digits — and
`"000123"` and `"+123"` parse to the same `BigInt` as `"123"`.  (Values of
103 or more digits, though representable, are truncated by
`big_int_to_string`.) -/
theorem decimal_codec_roundtrip_canonical :
    (∀ s : List Char, validDecimal s →
      digitsNat (splitSign s).2 < 10 ^ MAX_BIGINT_STRING_LEN →
      big_int_to_string (big_int_from_string s) = canonicalize s) ∧
    big_int_from_string "000123".data = big_int_from_string "123".data ∧
    big_int_from_string "+123".data = big_int_from_string "123".data := by
  refine ⟨?_, by decide, by decide⟩
  intro s hs hr
  obtain ⟨hne, hdig⟩ := hs
  have hrange : digitsNat (splitSign s).2 < WORD ^ NUM_LIMBS := by
    have h2 : (10 : Nat) ^ MAX_BIGINT_STRING_LEN < WORD ^ NUM_LIMBS := by decide
    exact lt_trans hr h2
  obtain ⟨hlen, hbd, hval, hsign⟩ := big_int_from_string_spec s ⟨hne, hdig⟩ hrange
  unfold canonicalize
  by_cases hzero : digitsNat (splitSign s).2 = 0
  · -- zero value: both sides render "0"
    have hdw : (splitSign s).2.dropWhile (· = '0') = [] := by
      rcases dropWhile_zero_head (splitSign s).2 with h | ⟨c, cs, hcons, hcne⟩
      · exact h
      · exfalso
        have hcdig : isDigitChar c := by
          have hmem : c ∈ (splitSign s).2 :=
            (List.dropWhile_sublist (· = '0')).mem (hcons ▸ List.mem_cons_self c cs)
          exact hdig c hmem
        have := digitsNat_head_pos c cs hcdig hcne
        rw [← hcons, digitsNat_dropWhile_zeros] at this
        exact this hzero
    have hiz : isZeroLimbs (big_int_from_string s).limbs = true := by
      rw [limbsVal_eq_zero_iff, hval, hzero]
    rw [if_pos hdw]
    unfold big_int_to_string
    rw [if_pos hiz]
  · -- nonzero value
    have hdiglen : (Nat.digits 10 (digitsNat (splitSign s).2)).length
        ≤ MAX_BIGINT_STRING_LEN := by
      rw [Nat.digits_len 10 _ (by norm_num) hzero]
      have := (Nat.lt_pow_iff_log_lt (b := 10) (by norm_num) hzero).mp hr
      omega
    have hts := big_int_to_string_spec (big_int_from_string s) hbd
      (by rw [hval]; exact hzero) (by rw [hval]; exact hdiglen)
    rw [hval] at hts
    obtain ⟨c, cs, hcons, hcne⟩ : ∃ c cs,
        (splitSign s).2.dropWhile (· = '0') = c :: cs ∧ c ≠ '0' := by
      rcases dropWhile_zero_head (splitSign s).2 with h | h
      · exfalso
        apply hzero
        rw [← digitsNat_dropWhile_zeros, h]
        rfl
      · exact h
    have hdig' : ∀ x ∈ c :: cs, isDigitChar x := by
      intro x hx
      exact hdig x ((List.dropWhile_sublist (· = '0')).mem (hcons ▸ hx))
    have hchars : ((Nat.digits 10 (digitsNat (splitSign s).2)).map
        (fun d => Char.ofNat (d + 48))).reverse = c :: cs := by
      have h1 := digits_of_digit_string c cs hdig' hcne
      have hnv : digitsNat (c :: cs) = digitsNat (splitSign s).2 := by
        rw [← hcons, digitsNat_dropWhile_zeros]
      rw [hnv] at h1
      exact h1
    have hdwne : ¬ (splitSign s).2.dropWhile (· = '0') = [] := by
      rw [hcons]; simp
    rw [if_neg hdwne, hts, hchars, hcons]
    have hsign' : (big_int_from_string s).sign = (splitSign s).1 := by
      rw [hsign, if_neg hzero]
    rcases splitSign_sign s with h1 | h1
    · rw [hsign', h1]
      norm_num
    · rw [hsign', h1]
      norm_num

/-- Witness for the amended C6 theorem: `"-00120"` round-trips to `"-120"`. -/
theorem decimal_codec_roundtrip_canonical_witness :
    big_int_to_string (big_int_from_string "-00120".data) = canonicalize "-00120".data :=
  decimal_codec_roundtrip_canonical.1 "-00120".data (by decide) (by decide)

/-- Witness for C9 at concrete inputs: a zero-sum addition, a zero-difference
subtraction, and `5 + (-5) = 0`. -/
theorem signed_ops_zero_positive_and_add_neg_self_witness :
    (big_int_add big_int_zero big_int_zero).sign = 1 ∧
    (big_int_sub big_int_zero big_int_zero).sign = 1 ∧
    big_int_add ⟨5 :: List.replicate 5 0, 1⟩
        (bigIntNegate ⟨5 :: List.replicate 5 0, 1⟩) = big_int_zero :=
  ⟨signed_ops_zero_positive_and_add_neg_self.1 big_int_zero big_int_zero (by decide),
   signed_ops_zero_positive_and_add_neg_self.2.1 big_int_zero big_int_zero (by decide),
   signed_ops_zero_positive_and_add_neg_self.2.2 ⟨5 :: List.replicate 5 0, 1⟩
     (Or.inl rfl) (by decide)⟩

/-! ## Lexer (PROJECT2/lexer.c)

The table-driven FSM lexer.  The C `LexContext` reads through a buffered
`FILE*`; here the buffer is the input character list.  `next_char` at end of
input mirrors the C behaviour exactly: `fread` returns 0, `buffer_pos` and
`buffer_size` are reset to 0 (so a subsequent `unget_char` is a no-op), and
the location is not updated — modelled by clearing the `consumed` stack.
Inputs are assumed to fit one 4096-byte read, which holds for every input
considered here. -/

/-- Token kinds.  `TOKEN_EOF = 0 .. TOKEN_ERROR = 18` follow lexer.h;
lexer.c additionally uses `TOKEN_PLUS` and `TOKEN_STAR`, which the shipped
lexer.h does not declare — they are modelled as the next two enum values
(`tokenTypeId` 19 and 20); no claim depends on their exact values beyond
being below `T_EOF = 199`. -/
inductive TokenType where
  | eofT | identifierT | writeT | andT | repeatT | newlineT | timesT | numberT
  | integerT | assignT | plusAssignT | minusAssignT | openbT | closebT
  | stringT | eolT | lparenT | rparenT | errorT | plusT | starT
  deriving Repr, DecidableEq

/-- The numeric value of the token-type enum (used as the ACTION-table
column by the parser driver). -/
def tokenTypeId : TokenType → Nat
  | .eofT => 0 | .identifierT => 1 | .writeT => 2 | .andT => 3 | .repeatT => 4
  | .newlineT => 5 | .timesT => 6 | .numberT => 7 | .integerT => 8 | .assignT => 9
  | .plusAssignT => 10 | .minusAssignT => 11 | .openbT => 12 | .closebT => 13
  | .stringT => 14 | .eolT => 15 | .lparenT => 16 | .rparenT => 17 | .errorT => 18
  | .plusT => 19 | .starT => 20

/-- FSM states (the `State` enum local to lexer.c). -/
inductive LexState where
  | start | identifier | integer | statePlus | colon | dash | stringSt | comment
  | final | errorSt | eol | eofSt
  deriving Repr, DecidableEq

/-- Character classes (the `CharClass` enum local to lexer.c). -/
inductive CharC where
  | alpha | digit | plus | equals | colon | dash | quote | star | whitespace
  | eolSemicolon | openb | closeb | lparen | rparen | other | ceof
  deriving Repr, DecidableEq

/-- `get_char_class`, with the C tests in source order (`isalpha`/`isdigit`/
`isspace` in the C locale over the input bytes). -/
def get_char_class : Option Char → CharC
  | none => .ceof
  | some c =>
      if ('a' ≤ c ∧ c ≤ 'z') ∨ ('A' ≤ c ∧ c ≤ 'Z') ∨ c = '_' then .alpha
      else if '0' ≤ c ∧ c ≤ '9' then .digit
      else if c = '"' then .quote
      else if c = '*' then .star
      else if c = ' ' ∨ c = '\t' ∨ c = '\n' ∨ c = '\x0b' ∨ c = '\x0c' ∨ c = '\r' then
        .whitespace
      else if c = ':' then .colon
      else if c = '+' then .plus
      else if c = '=' then .equals
      else if c = '-' then .dash
      else if c = ';' then .eolSemicolon
      else if c = '{' then .openb
      else if c = '}' then .closeb
      else if c = '(' then .lparen
      else if c = ')' then .rparen
      else .other

/-- One table write, as in `ctx->transition_table[s][c] = v`. -/
def updTT (t : LexState → CharC → LexState) (s : LexState) (c : CharC)
    (v : LexState) : LexState → CharC → LexState :=
  fun s' c' => if s' = s ∧ c' = c then v else t s' c'

/-- `setup_transition_table`: everything defaults to `STATE_ERROR`, then the
writes in source order; the `STATE_STRING` and `STATE_COMMENT` rows are
filled by loops over all classes; finally every state maps `CHAR_EOF` to
`STATE_EOF` unless already set to something other than ERROR/START. -/
def setupTT : LexState → CharC → LexState :=
  let t : LexState → CharC → LexState := fun _ _ => .errorSt
  let t := updTT t .start .alpha .identifier
  let t := updTT t .start .digit .integer
  let t := updTT t .start .plus .statePlus
  let t := updTT t .start .colon .colon
  let t := updTT t .start .dash .dash
  let t := updTT t .start .quote .stringSt
  let t := updTT t .start .star .comment
  let t := updTT t .start .openb .final
  let t := updTT t .start .closeb .final
  let t := updTT t .start .lparen .final
  let t := updTT t .start .rparen .final
  let t := updTT t .start .whitespace .start
  let t := updTT t .start .eolSemicolon .eol
  let t := updTT t .start .ceof .eofSt
  let t := updTT t .identifier .alpha .identifier
  let t := updTT t .identifier .digit .identifier
  let t := updTT t .integer .digit .integer
  let t := updTT t .statePlus .equals .final
  let t := updTT t .colon .equals .final
  let t := updTT t .dash .equals .final
  let t := updTT t .dash .digit .integer
  let t := fun s c => if s = .stringSt ∧ c ≠ .quote ∧ c ≠ .ceof then .stringSt else t s c
  let t := updTT t .stringSt .quote .final
  let t := fun s c => if s = .comment ∧ c ≠ .star ∧ c ≠ .ceof then .comment else t s c
  let t := updTT t .comment .star .comment
  fun s c =>
    if c = .ceof ∧ (t s .ceof = .errorSt ∨ t s .ceof = .start) then .eofSt else t s c

/-- A symbol-table entry (`SymbolEntry`). -/
structure SymEntry where
  name : List Char
  type : TokenType
  isKeyword : Bool
  deriving Repr, DecidableEq

/-- `#define MAX_LEXEME_LENGTH 256`. -/
def MAX_LEXEME_LENGTH : Nat := 256

/-- `#define SYMBOL_TABLE_SIZE 1024`. -/
def SYMBOL_TABLE_SIZE : Nat := 1024

/-- The lexer context (`LexContext`).  `consumed` is the already-read prefix
in reverse; it realizes the buffered `unget_char`, and is cleared when a
read hits end of input (the C code resets `buffer_pos`/`buffer_size`).
`errors` collects the `report_error` messages with their locations. -/
structure LexCtx where
  currentChar : Option Char
  remaining : List Char
  consumed : List Char
  line : Int
  column : Int
  symbols : List SymEntry
  errors : List (Int × Int × String)
  deriving Repr

/-- `next_char`: pop one character, updating line/column; at end of input
return EOF, reset the push-back stack, and leave the location unchanged. -/
def next_char (ctx : LexCtx) : Option Char × LexCtx :=
  match ctx.remaining with
  | [] => (none, { ctx with consumed := [] })
  | c :: rest =>
      (some c, { ctx with
        remaining := rest
        consumed := c :: ctx.consumed
        line := if c = '\n' then ctx.line + 1 else ctx.line
        column := if c = '\n' then 0 else ctx.column + 1 })

/-- `unget_char`: push the last read character back (no-op past the buffer
start), undoing its location update. -/
def unget_char (ctx : LexCtx) : LexCtx :=
  match ctx.consumed with
  | [] => ctx
  | c :: cs => { ctx with
      remaining := c :: ctx.remaining
      consumed := cs
      line := if c = '\n' then ctx.line - 1 else ctx.line
      column := if c = '\n' then 0 else ctx.column - 1 }

/-- `lookup_symbol`: first index whose name matches, if any. -/
def lookup_symbol (syms : List SymEntry) (name : List Char) : Option Nat :=
  syms.findIdx? (fun e => e.name = name)

/-- `add_to_symbol_table`: return an existing index, else append (capped at
`SYMBOL_TABLE_SIZE`; the overflow report is irrelevant to the claims). -/
def add_to_symbol_table (syms : List SymEntry) (name : List Char)
    (type : TokenType) (isKeyword : Bool) : List SymEntry × Option Nat :=
  match lookup_symbol syms name with
  | some i => (syms, some i)
  | none =>
      if syms.length < SYMBOL_TABLE_SIZE then
        (syms ++ [⟨name, type, isKeyword⟩], some syms.length)
      else (syms, none)

/-- The keyword seeding performed by `init_lexer`. -/
def initSymbols : List SymEntry :=
  let t := (add_to_symbol_table [] "write".data .writeT true).1
  let t := (add_to_symbol_table t "and".data .andT true).1
  let t := (add_to_symbol_table t "repeat".data .repeatT true).1
  let t := (add_to_symbol_table t "newline".data .newlineT true).1
  let t := (add_to_symbol_table t "times".data .timesT true).1
  let t := (add_to_symbol_table t "number".data .numberT true).1
  t

/-- `init_lexer`: line 1, column 0, keywords seeded, first character read. -/
def init_lexer (input : List Char) : LexCtx :=
  let ctx : LexCtx := { currentChar := none, remaining := input, consumed := [],
                        line := 1, column := 0, symbols := initSymbols, errors := [] }
  let r := next_char ctx
  { r.2 with currentChar := r.1 }

/-- `report_error`: append the message with the current location. -/
def report_error (ctx : LexCtx) (msg : String) : LexCtx :=
  { ctx with errors := ctx.errors ++ [(ctx.line, ctx.column, msg)] }

/-- A token (`Token`).  `intValue` models the `value.int_value` long long
set by `atoll`; `symbolIndex` models `value.symbol_index`. -/
structure Token where
  type : TokenType
  lexeme : List Char
  line : Int
  column : Int
  intValue : Int := 0
  symbolIndex : Int := 0
  deriving Repr, DecidableEq

/-- Models `atoll` on the lexer's integer lexemes (optional sign then
digits).  ISO C leaves overflow undefined; glibc's `atoll` (`strtoll`)
saturates at the `long long` bounds, which is what is modelled. -/
def atoll_model (s : List Char) : Int :=
  let p := splitSign s
  let v : Int := p.1 * (digitsNat (p.2.takeWhile (fun c => decide (isDigitChar c))) : Int)
  if v > 2 ^ 63 - 1 then 2 ^ 63 - 1 else if v < -(2 ^ 63) then -(2 ^ 63) else v

lemma next_char_remaining_len (ctx : LexCtx) :
    (next_char ctx).2.remaining.length ≤ ctx.remaining.length := by
  unfold next_char
  cases ctx.remaining <;> simp

lemma next_char_some_len {ctx : LexCtx} {c : Char} {ctx2 : LexCtx}
    (h : next_char ctx = (some c, ctx2)) :
    ctx2.remaining.length + 1 = ctx.remaining.length := by
  unfold next_char at h
  cases hrem : ctx.remaining with
  | nil => rw [hrem] at h; simp at h
  | cons x rest =>
      rw [hrem] at h
      simp only [Prod.mk.injEq] at h
      rw [← h.2]
      simp [hrem]

/-- The multi-line-comment scan inside `get_next_token` (lines 470-496):
read until EOF (`.error`, unterminated) or until a `**` pair; after the
close, one more character is read into `current_char`.  A lone `*` consumes
the following character as well.  The C `while` loop is translated with a
step counter (`fuel`); `none` means the counter ran out, which never happens
when it is at least the remaining input length plus one, since every
iteration consumes input. -/
def scanComment : Nat → LexCtx → Option (Except LexCtx LexCtx)
  | 0, _ => none
  | fuel + 1, ctx =>
      match next_char ctx with
      | (none, ctxE) => some (.error ctxE)
      | (some c, ctx1) =>
          if c = '*' then
            match next_char ctx1 with
            | (some c2, ctx2) =>
                if c2 = '*' then
                  let r := next_char ctx2
                  some (.ok { r.2 with currentChar := r.1 })
                else scanComment fuel { ctx2 with currentChar := some c2 }
            | (none, ctx2) => scanComment fuel { ctx2 with currentChar := none }
          else scanComment fuel { ctx1 with currentChar := some c }

/-- The token-start scan of `get_next_token` (lines 458-513): skip
whitespace and comments; return an EOF token or an unterminated-comment
error token directly (`Sum.inl`), or the context ready for the FSM together
with the token start location (`Sum.inr`).  Fuel as in `scanComment`. -/
def skipPhase : Nat → LexCtx → Option ((Token × LexCtx) ⊕ (LexCtx × Int × Int))
  | 0, _ => none
  | fuel + 1, ctx =>
      match get_char_class ctx.currentChar with
      | .whitespace =>
          let r := next_char ctx
          skipPhase fuel { r.2 with currentChar := r.1 }
      | .star =>
          match next_char ctx with
          | (t, ctx1) =>
              if t = some '*' then
                match scanComment (ctx1.remaining.length + 1) ctx1 with
                | none => none
                | some (.error ctxE) =>
                    let ctxE2 := report_error ctxE "Unterminated comment."
                    some (.inl ({ type := .errorT, lexeme := [], line := ctx.line,
                                  column := ctx.column }, ctxE2))
                | some (.ok ctx2) => skipPhase fuel ctx2
              else some (.inr (unget_char ctx1, ctx.line, ctx.column))
      | .ceof => some (.inl ({ type := .eofT, lexeme := "EOF".data, line := ctx.line,
                               column := ctx.column }, ctx))
      | _ => some (.inr (ctx, ctx.line, ctx.column))

/-- The token-termination switch of `get_next_token` (lines 576-697),
entered when the current character does not extend the token: `state` is
the FSM state just left, `cls` the class of the terminating character. -/
def finishToken (ctx : LexCtx) (state : LexState) (cls : CharC)
    (lexeme : List Char) (startLine startCol : Int) : Token × LexCtx :=
  match state with
  | .start =>
      -- single-character tokens: the current character itself is appended
      -- and forms the token (the lexeme is empty in this state)
      let lexeme2 := lexeme ++ (match ctx.currentChar with | some c => [c] | none => [])
      let tyCtx : TokenType × LexCtx :=
        match cls with
        | .openb => (.openbT, ctx)
        | .closeb => (.closebT, ctx)
        | .lparen => (.lparenT, ctx)
        | .rparen => (.rparenT, ctx)
        | .plus => (.plusT, ctx)
        | .star => (.starT, ctx)
        | .eolSemicolon => (.eolT, ctx)
        | .ceof => (.eofT, ctx)
        | _ => (.errorT, report_error ctx
            "Unexpected single character or unhandled transition from START state.")
      let r := next_char tyCtx.2
      ({ type := tyCtx.1, lexeme := lexeme2, line := startLine, column := startCol },
       { r.2 with currentChar := r.1 })
  | .identifier =>
      let ctx1 := unget_char ctx
      match lookup_symbol ctx1.symbols lexeme with
      | some i =>
          match ctx1.symbols[i]? with
          | some e =>
              if e.isKeyword then
                ({ type := e.type, lexeme := lexeme, line := startLine,
                   column := startCol }, ctx1)
              else
                ({ type := .identifierT, lexeme := lexeme, line := startLine,
                   column := startCol, symbolIndex := (i : Int) }, ctx1)
          | none => -- unreachable: an index found by lookup_symbol is in range
              ({ type := .errorT, lexeme := lexeme, line := startLine,
                 column := startCol }, ctx1)
      | none =>
          let r := add_to_symbol_table ctx1.symbols lexeme .identifierT false
          let idx : Int := match r.2 with | some i => (i : Int) | none => -1
          ({ type := .identifierT, lexeme := lexeme, line := startLine,
             column := startCol, symbolIndex := idx }, { ctx1 with symbols := r.1 })
  | .integer =>
      ({ type := .integerT, lexeme := lexeme, line := startLine, column := startCol,
         intValue := atoll_model lexeme }, unget_char ctx)
  | .statePlus =>
      ({ type := .plusT, lexeme := lexeme, line := startLine, column := startCol },
       unget_char ctx)
  | .colon =>
      ({ type := .errorT, lexeme := lexeme, line := startLine, column := startCol },
       unget_char (report_error ctx "Unexpected standalone colon. Expected ':='."))
  | .dash =>
      ({ type := .errorT, lexeme := lexeme, line := startLine, column := startCol },
       unget_char (report_error ctx
         "Unexpected standalone dash. Expected '-=' or start of negative number."))
  | .stringSt =>
      if cls = .ceof then
        ({ type := .errorT, lexeme := lexeme, line := startLine, column := startCol },
         report_error ctx "Unterminated string literal at EOF.")
      else
        ({ type := .errorT, lexeme := lexeme, line := startLine, column := startCol },
         unget_char (report_error ctx "Internal error in string lexing logic."))
  | .final =>
      let ty : TokenType :=
        if lexeme = ":=".data then .assignT
        else if lexeme = "+=".data then .plusAssignT
        else if lexeme = "-=".data then .minusAssignT
        else if lexeme.head? = some '"' ∧ lexeme.getLast? = some '"' then .stringT
        else .errorT
      let ctx1 := if ty = TokenType.errorT then
          report_error ctx "Unknown token identified from STATE_FINAL." else ctx
      ({ type := ty, lexeme := lexeme, line := startLine, column := startCol }, ctx1)
  | .eol =>
      let r := next_char ctx
      ({ type := .eolT, lexeme := lexeme, line := startLine, column := startCol },
       { r.2 with currentChar := r.1 })
  | .eofSt =>
      ({ type := .eofT, lexeme := lexeme, line := startLine, column := startCol }, ctx)
  | _ =>
      let r := next_char (report_error ctx
        "Unhandled lexer state transition or unexpected character sequence.")
      ({ type := .errorT, lexeme := lexeme, line := startLine, column := startCol },
       { r.2 with currentChar := r.1 })

/-- The lexeme-building FSM loop of `get_next_token` (lines 522-700): a
character is consumed exactly when one of the four `should_consume`
conditions holds; otherwise the token is finished from the current state.
Fuel as in `scanComment`. -/
def fsmLoop : Nat → LexCtx → LexState → List Char → Int → Int →
    Option (Token × LexCtx)
  | 0, _, _, _, _, _ => none
  | fuel + 1, ctx, state, lexeme, startLine, startCol =>
      let cls := get_char_class ctx.currentChar
      let next := setupTT state cls
      if (state = .start ∧ (next = .identifier ∨ next = .integer ∨ next = .statePlus ∨
            next = .colon ∨ next = .dash ∨ next = .stringSt)) ∨
          ((state = .identifier ∨ state = .integer) ∧ next = state) ∨
          ((state = .statePlus ∨ state = .colon ∨ state = .dash) ∧ cls = .equals) ∨
          (state = .stringSt ∧ cls ≠ .quote ∧ cls ≠ .ceof) then
        if lexeme.length < MAX_LEXEME_LENGTH - 1 then
          match ctx.currentChar with
          | some c =>
              let r := next_char ctx
              fsmLoop fuel { r.2 with currentChar := r.1 } next (lexeme ++ [c])
                startLine startCol
          | none =>
              -- unreachable: every consuming condition excludes the EOF class
              some ({ type := .errorT, lexeme := lexeme, line := startLine,
                      column := startCol }, ctx)
        else
          some ({ type := .errorT, lexeme := lexeme, line := startLine,
                  column := startCol },
                report_error ctx "Lexeme too long.")
      else
        some (finishToken ctx state cls lexeme startLine startCol)

/-- `get_next_token`: skip whitespace and comments, then run the FSM from
`STATE_START` with an empty lexeme.  Both loops get ample fuel computed from
the remaining input; `none` (fuel exhaustion) never occurs. -/
def get_next_token (ctx : LexCtx) : Option (Token × LexCtx) :=
  match skipPhase (ctx.remaining.length + 2) ctx with
  | none => none
  | some (.inl r) => some r
  | some (.inr (ctx1, sl, sc)) =>
      fsmLoop (ctx1.remaining.length + 2) ctx1 .start [] sl sc

/-- The token-collection loop of `lexer` (lines 188-207): gather tokens
until an EOF or ERROR token (both included).  The C loop is unbounded; the
fuel bounds iterations and is ample for every input considered here —
insufficient fuel can only truncate the list, never fabricate tokens. -/
def lexer_loop : Nat → LexCtx → List Token
  | 0, _ => []
  | fuel + 1, ctx =>
      match get_next_token ctx with
      | none => []
      | some (tok, ctx2) =>
          tok :: (if tok.type = .eofT ∨ tok.type = .errorT then []
                  else lexer_loop fuel ctx2)

/-- `lexer`: initialize the context and collect the tokens of an input. -/
def lexer_run (input : List Char) : List Token :=
  lexer_loop (2 * input.length + 4) (init_lexer input)

/-- Type and lexeme of each token (location and payload projected away). -/
def tokenSigs (ts : List Token) : List (TokenType × List Char) :=
  ts.map fun t => (t.type, t.lexeme)

/-- Text the comment scan passes through without closing: no two adjacent
stars and no trailing star (a trailing star would pair with the closing
delimiter's first star). -/
def noStarPair : List Char → Bool
  | [] => true
  | [c] => c != '*'
  | c :: c2 :: rest => !(c == '*' && c2 == '*') && noStarPair (c2 :: rest)

/-- Text with no two adjacent stars (no `**` pair at all). -/
def noAdjPair : List Char → Bool
  | [] => true
  | [_] => true
  | c :: c2 :: rest => !(c == '*' && c2 == '*') && noAdjPair (c2 :: rest)

lemma noStarPair_tail (x : Char) (t : List Char) (h : noStarPair (x :: t) = true) :
    noStarPair t = true := by
  cases t with
  | nil => rfl
  | cons y ys => simp [noStarPair] at h; exact h.2

lemma noAdjPair_tail (x : Char) (t : List Char) (h : noAdjPair (x :: t) = true) :
    noAdjPair t = true := by
  cases t with
  | nil => rfl
  | cons y ys => simp [noAdjPair] at h; exact h.2

/-- The comment scan consumes a pair-free text and stops exactly at the next
`**` pair: scanning resumes at `rest`, and neither a token nor an error nor
a symbol is produced for the comment's content. -/
lemma scanComment_closes (n : Nat) : ∀ (text : List Char), text.length ≤ n →
    noStarPair text = true →
    ∀ (fuel : Nat), text.length + 1 ≤ fuel →
    ∀ (cc : Option Char) (rest cons : List Char) (l c : Int) (syms : List SymEntry)
      (errs : List (Int × Int × String)),
    ∃ ctx2, scanComment fuel ⟨cc, text ++ '*' :: '*' :: rest, cons, l, c, syms, errs⟩
        = some (.ok ctx2) ∧ ctx2.currentChar = rest.head? ∧ ctx2.remaining = rest.tail ∧
      ctx2.symbols = syms ∧ ctx2.errors = errs := by
  induction n with
  | zero =>
      intro text hlen _ fuel hfuel cc rest cons l c syms errs
      have htext : text = [] := List.length_eq_zero.mp (Nat.le_zero.mp hlen)
      subst htext
      obtain ⟨f, rfl⟩ : ∃ f, fuel = f + 1 := ⟨fuel - 1, by omega⟩
      cases rest with
      | nil => exact ⟨_, rfl, rfl, rfl, rfl, rfl⟩
      | cons r rs => exact ⟨_, rfl, rfl, rfl, rfl, rfl⟩
  | succ n ihn =>
      intro text hlen hnp fuel hfuel cc rest cons l c syms errs
      cases text with
      | nil =>
          obtain ⟨f, rfl⟩ : ∃ f, fuel = f + 1 := ⟨fuel - 1, by omega⟩
          cases rest with
          | nil => exact ⟨_, rfl, rfl, rfl, rfl, rfl⟩
          | cons r rs => exact ⟨_, rfl, rfl, rfl, rfl, rfl⟩
      | cons x t1 =>
          obtain ⟨f, rfl⟩ : ∃ f, fuel = f + 1 := ⟨fuel - 1, by omega⟩
          cases t1 with
          | nil =>
              have hx : ¬ x = '*' := by simpa [noStarPair] using hnp
              simp only [List.cons_append, List.nil_append, scanComment, next_char]
              rw [if_neg hx]
              exact ihn [] (by simp) rfl f (by simp at hfuel ⊢; omega) _ rest _ _ _ _ _
          | cons y t =>
              have hnp2 : noStarPair (y :: t) = true := noStarPair_tail x (y :: t) hnp
              by_cases hx : x = '*'
              · subst hx
                have hy : ¬ y = '*' := by
                  intro hcon
                  rw [hcon] at hnp
                  simp [noStarPair] at hnp
                simp only [List.cons_append, scanComment, next_char, if_true]
                rw [if_neg hy]
                exact ihn t (by simp at hlen; omega) (noStarPair_tail y t hnp2) f
                  (by simp at hfuel; omega) _ rest _ _ _ _ _
              · simp only [List.cons_append, scanComment, next_char]
                rw [if_neg hx]
                exact ihn (y :: t) (by simp at hlen ⊢; omega) hnp2 f
                  (by simp at hfuel ⊢; omega) _ rest _ _ _ _ _

/-- The comment scan on text with no `**` pair at all runs to the end of
input and reports an unterminated comment. -/
lemma scanComment_unterminated (n : Nat) : ∀ (text : List Char), text.length ≤ n →
    noAdjPair text = true →
    ∀ (fuel : Nat), text.length + 1 ≤ fuel →
    ∀ (cc : Option Char) (cons : List Char) (l c : Int) (syms : List SymEntry)
      (errs : List (Int × Int × String)),
    ∃ ctxE, scanComment fuel ⟨cc, text, cons, l, c, syms, errs⟩ = some (.error ctxE) := by
  induction n with
  | zero =>
      intro text hlen _ fuel hfuel cc cons l c syms errs
      have htext : text = [] := List.length_eq_zero.mp (Nat.le_zero.mp hlen)
      subst htext
      obtain ⟨f, rfl⟩ : ∃ f, fuel = f + 1 := ⟨fuel - 1, by omega⟩
      exact ⟨_, rfl⟩
  | succ n ihn =>
      intro text hlen hnp fuel hfuel cc cons l c syms errs
      cases text with
      | nil =>
          obtain ⟨f, rfl⟩ : ∃ f, fuel = f + 1 := ⟨fuel - 1, by omega⟩
          exact ⟨_, rfl⟩
      | cons x t1 =>
          obtain ⟨f, rfl⟩ : ∃ f, fuel = f + 1 := ⟨fuel - 1, by omega⟩
          cases t1 with
          | nil =>
              by_cases hx : x = '*'
              · subst hx
                simp only [scanComment, next_char, if_true]
                exact ihn [] (by simp) rfl f (by simp at hfuel ⊢; omega) _ _ _ _ _ _
              · simp only [scanComment, next_char]
                rw [if_neg hx]
                exact ihn [] (by simp) rfl f (by simp at hfuel ⊢; omega) _ _ _ _ _ _
          | cons y t =>
              have hnp2 : noAdjPair (y :: t) = true := noAdjPair_tail x (y :: t) hnp
              by_cases hx : x = '*'
              · subst hx
                have hy : ¬ y = '*' := by
                  intro hcon
                  rw [hcon] at hnp
                  simp [noAdjPair] at hnp
                simp only [scanComment, next_char, if_true]
                rw [if_neg hy]
                exact ihn t (by simp at hlen; omega) (noAdjPair_tail y t hnp2) f
                  (by simp at hfuel; omega) _ _ _ _ _ _
              · simp only [scanComment, next_char]
                rw [if_neg hx]
                exact ihn (y :: t) (by simp at hlen ⊢; omega) hnp2 f
                  (by simp at hfuel ⊢; omega) _ _ _ _ _ _

example : tokenSigs (lexer_run "write x".data) =
    [(.writeT, "write".data), (.identifierT, "x".data), (.eofT, "EOF".data)] := by decide

example : tokenSigs (lexer_run "*".data) =
    [(.starT, "*".data), (.eofT, "EOF".data)] := by decide

/-- C7: a `**` pair opens a multi-line comment that is closed exactly by the
next `**` pair.  First conjunct (general): any comment body free of `**`
pairs (and not ending in a star, which would pair with the closing
delimiter) is skipped whole — the scan succeeds, resumes right after the
closing pair, and adds no symbol and no error, so the content produces no
token.  Second conjunct (general): a body with no `**` pair at all runs the
scan into end of input, which surfaces as the unterminated-comment error.
Third conjunct: `a ** abc ** b` lexes to exactly the two identifiers and
EOF — nothing for the comment.  Fourth conjunct: `** abc` at end of input
yields an ERROR token and the `Unterminated comment.` lexical error.  Fifth
conjunct: a single `*` outside a string lexes as the star token. -/
theorem comment_pair_skip_star_token_and_unterminated :
    (∀ (text rest cons : List Char) (fuel : Nat) (cc : Option Char) (l c : Int)
       (syms : List SymEntry) (errs : List (Int × Int × String)),
       noStarPair text = true → text.length + 1 ≤ fuel →
       ∃ ctx2, scanComment fuel ⟨cc, text ++ '*' :: '*' :: rest, cons, l, c, syms, errs⟩
           = some (.ok ctx2) ∧ ctx2.currentChar = rest.head? ∧
         ctx2.remaining = rest.tail ∧ ctx2.symbols = syms ∧ ctx2.errors = errs) ∧
    (∀ (text cons : List Char) (fuel : Nat) (cc : Option Char) (l c : Int)
       (syms : List SymEntry) (errs : List (Int × Int × String)),
       noAdjPair text = true → text.length + 1 ≤ fuel →
       ∃ ctxE, scanComment fuel ⟨cc, text, cons, l, c, syms, errs⟩
           = some (.error ctxE)) ∧
    tokenSigs (lexer_run "a ** abc ** b".data) =
      [(.identifierT, "a".data), (.identifierT, "b".data), (.eofT, "EOF".data)] ∧
    (get_next_token (init_lexer "** abc".data)).map
        (fun r => (r.1.type, r.2.errors.map (fun e => e.2.2)))
      = some (.errorT, ["Unterminated comment."]) ∧
    tokenSigs (lexer_run "*".data) = [(.starT, "*".data), (.eofT, "EOF".data)] := by
  refine ⟨?_, ?_, by decide, by decide, by decide⟩
  · intro text rest cons fuel cc l c syms errs hnp hfuel
    exact scanComment_closes text.length text le_rfl hnp fuel hfuel cc rest cons l c
      syms errs
  · intro text cons fuel cc l c syms errs hnp hfuel
    exact scanComment_unterminated text.length text le_rfl hnp fuel hfuel cc cons l c
      syms errs

/-- Witness for C7: the two general conjuncts instantiated at the body
` abc` with all hypotheses discharged on concrete input. -/
theorem comment_pair_skip_star_token_and_unterminated_witness :
    (noStarPair " abc".data = true ∧
     ∃ ctx2, scanComment 6 ⟨none, " abc".data ++ '*' :: '*' :: " b".data, [], 1, 1, [], []⟩
         = some (.ok ctx2) ∧ ctx2.currentChar = (" b".data).head? ∧
       ctx2.remaining = (" b".data).tail ∧ ctx2.symbols = [] ∧ ctx2.errors = []) ∧
    (noAdjPair " abc".data = true ∧
     ∃ ctxE, scanComment 6 ⟨none, " abc".data, [], 1, 1, [], []⟩ = some (.error ctxE)) :=
  ⟨⟨by decide,
    comment_pair_skip_star_token_and_unterminated.1 " abc".data " b".data [] 6 none 1 1
      [] [] (by decide) (by decide)⟩,
   ⟨by decide,
    comment_pair_skip_star_token_and_unterminated.2.1 " abc".data [] 6 none 1 1 [] []
      (by decide) (by decide)⟩⟩

/-- C8: the transition table does send Dash on a digit into the Integer
state (first conjunct, `transition_table[STATE_DASH][CHAR_DIGIT] =
STATE_INTEGER`, lexer.c line 315), but the driver's `should_consume`
conditions never consume a digit from the Dash state, so `-5` does NOT lex
as one integer token: it produces an ERROR token with lexeme `-` and the
standalone-dash error (second and third conjuncts), refuting the claimed
negative-literal behaviour.  The remaining conjuncts check the parts of the
claim that do hold: `x -= 5` lexes as identifier, `-=`, integer; a bare `:`
is a lexical error; a bare `+` is a valid token. -/
theorem dash_digit_transition_unreachable_in_driver :
    setupTT .dash .digit = .integer ∧
    tokenSigs (lexer_run "-5".data) = [(.errorT, "-".data)] ∧
    (get_next_token (init_lexer "-5".data)).map
        (fun r => (r.1.type, r.1.lexeme, r.2.errors.map (fun e => e.2.2)))
      = some (.errorT, "-".data,
          ["Unexpected standalone dash. Expected '-=' or start of negative number."]) ∧
    tokenSigs (lexer_run "x -= 5".data) =
      [(.identifierT, "x".data), (.minusAssignT, "-=".data), (.integerT, "5".data),
       (.eofT, "EOF".data)] ∧
    (get_next_token (init_lexer ":".data)).map
        (fun r => (r.1.type, r.2.errors.map (fun e => e.2.2)))
      = some (.errorT, ["Unexpected standalone colon. Expected ':='."]) ∧
    tokenSigs (lexer_run "+".data) = [(.plusT, "+".data), (.eofT, "EOF".data)] := by
  refine ⟨by decide, by decide, by decide, by decide, by decide, by decide⟩

/-- An 80-digit decimal literal, `1` followed by 79 zeros (value `10^79`). -/
def lit80 : List Char := '1' :: List.replicate 79 '0'

set_option maxRecDepth 8000 in
/-- C2: the integer token does NOT carry the literal's value as a BigInt.
The lexer accepts the 80-digit literal (first conjunct) but stores
`atoll(lexeme)` in a `long long` field, which saturates at `2^63 - 1`
(second conjunct) — far below the literal's value `10^79` (third and fourth
conjuncts).  The BigInt decimal codec itself would round-trip the literal
exactly (fifth conjunct), but `parser_get_node_from_token` builds the
number node from the truncated `long long`, so the value written back is
`9223372036854775807`, not the literal (sixth conjunct). -/
theorem integer_token_payload_is_long_long_not_bigint :
    tokenSigs (lexer_run lit80) = [(.integerT, lit80), (.eofT, "EOF".data)] ∧
    (lexer_run lit80).head?.map Token.intValue = some ((2 : Int) ^ 63 - 1) ∧
    digitsNat lit80 = 10 ^ 79 ∧
    ((2 : Int) ^ 63 - 1) < ((10 : Int) ^ 79) ∧
    big_int_to_string (big_int_from_string lit80) = lit80 ∧
    big_int_to_string (big_int_from_long_long (atoll_model lit80))
      = "9223372036854775807".data := by
  refine ⟨by decide, by decide, by decide, by decide, by decide, by decide⟩

/-! ## Interpreter (interpreter.c)

The tree-walking evaluator.  `stdout` is modelled as the list of strings
printed by `write` elements (the `[DEBUG]`/trace `printf`s are not
modelled); `stderr` as the list of error messages, formatted as in the C
`fprintf` calls (the `%d` node-type suffix of the unexpected-statement
message is not reproduced). -/

/-- The `ASTNodeType` values the interpreter dispatches on (ast.h). -/
inductive IAstType where
  | program | statementList | declaration | assignment | increment | decrement
  | writeStatement | loopStatement | codeBlock | outputList | listElement
  | intValue | integerLiteral | identifier | stringLiteral | newline
  deriving Repr, DecidableEq

/-- An `ASTNode`: type, child array, and the union payloads used by the
interpreter (`data.identifier.name`, `data.integer`, `data.string_value`,
`data.loop.count_expr` / `data.loop.body` — the two loop pointers are
modelled as lists that are empty for `NULL` and singletons otherwise),
plus the source location. -/
inductive IAst where
  | node (ty : IAstType) (children : List IAst) (name : List Char)
      (intData : BigInt) (strData : List Char)
      (loopCount : List IAst) (loopBody : List IAst) (line column : Int)
  deriving Repr

def IAst.ty : IAst → IAstType | .node t _ _ _ _ _ _ _ _ => t

def IAst.children : IAst → List IAst | .node _ c _ _ _ _ _ _ _ => c

def IAst.name : IAst → List Char | .node _ _ n _ _ _ _ _ _ => n

def IAst.intData : IAst → BigInt | .node _ _ _ v _ _ _ _ _ => v

def IAst.strData : IAst → List Char | .node _ _ _ _ sv _ _ _ _ => sv

def IAst.loopCount : IAst → List IAst | .node _ _ _ _ _ ce _ _ _ => ce

def IAst.loopBody : IAst → List IAst | .node _ _ _ _ _ _ b _ _ => b

def IAst.line : IAst → Int | .node _ _ _ _ _ _ _ l _ => l

def IAst.column : IAst → Int | .node _ _ _ _ _ _ _ _ c => c

/-- The runtime state: the `RuntimeSymbolTable` (entry order as in the C
array), the `stderr` error messages, and the `stdout` output pieces. -/
structure IState where
  table : List (List Char × BigInt)
  errors : List String
  output : List String
  deriving Repr

/-- Append an error message (a `fprintf(stderr, ...)`). -/
def errS (st : IState) (m : String) : IState :=
  { st with errors := st.errors ++ [m] }

/-- `add_or_update_runtime_symbol`: update the first entry with this name
in place, or append a new entry at the end. -/
def add_or_update_runtime_symbol :
    List (List Char × BigInt) → List Char → BigInt → List (List Char × BigInt)
  | [], name, v => [(name, v)]
  | e :: es, name, v =>
      if e.1 = name then (e.1, v) :: es
      else e :: add_or_update_runtime_symbol es name v

/-- `lookup_runtime_symbol`: value of the first entry with this name. -/
def lookup_runtime_symbol : List (List Char × BigInt) → List Char → Option BigInt
  | [], _ => none
  | e :: es, name => if e.1 = name then some e.2 else lookup_runtime_symbol es name

/-- `evaluate_big_int_value` (lines 374-396): an integer literal yields its
stored BigInt; an identifier is looked up, and when undeclared the error is
reported and ZERO is returned; malformed nodes also report and yield zero. -/
def evaluate_big_int_value (nd : IAst) (st : IState) : BigInt × IState :=
  if h : nd.ty = .intValue ∧ nd.children.length = 1 then
    match nd.children with
    | child :: _ =>
        if child.ty = .integerLiteral then (child.intData, st)
        else if child.ty = .identifier then
          match lookup_runtime_symbol st.table child.name with
          | some v => (v, st)
          | none =>
              (big_int_zero, errS st ("Runtime Error: Undeclared variable '"
                ++ String.mk child.name ++ "' used in expression at line "
                ++ toString nd.line ++ ", column " ++ toString nd.column ++ "."))
        else
          (big_int_zero, errS st "Interpreter Error: Invalid child type for AST_INT_VALUE.")
    | [] => (big_int_zero, st)  -- excluded by the length-1 guard
  else
    (big_int_zero, errS st
      "Interpreter Error: Invalid AST_INT_VALUE node structure. Expected one child.")

/-- `interpret_declaration` (lines 161-183): on redeclaration, report and
return WITHOUT touching the table; otherwise bind the name to zero. -/
def interpret_declaration (nd : IAst) (st : IState) : IState :=
  if h : nd.ty = .declaration ∧ nd.children.length = 1 ∧
      nd.children.head?.map IAst.ty = some .identifier then
    match nd.children with
    | child :: _ =>
        match lookup_runtime_symbol st.table child.name with
        | some _ =>
            errS st ("Runtime Error: Variable '" ++ String.mk child.name
              ++ "' already declared at line " ++ toString nd.line
              ++ ", column " ++ toString nd.column ++ ".")
        | none =>
            let t2 := add_or_update_runtime_symbol st.table child.name big_int_zero
            { st with table := t2 }
    | [] => st  -- excluded by the guard
  else errS st "Interpreter Error: Invalid AST_DECLARATION node structure."

/-- `interpret_assignment` (lines 185-206): the right-hand side is
evaluated first; an undeclared target only reports. -/
def interpret_assignment (nd : IAst) (st : IState) : IState :=
  if h : nd.ty = .assignment ∧ nd.children.length = 2 ∧
      nd.children.head?.map IAst.ty = some .identifier ∧
      (nd.children.drop 1).head?.map IAst.ty = some .intValue then
    match nd.children with
    | child :: rhs :: _ =>
        let r := evaluate_big_int_value rhs st
        match lookup_runtime_symbol r.2.table child.name with
        | some _ =>
            { r.2 with table := add_or_update_runtime_symbol r.2.table child.name r.1 }
        | none =>
            errS r.2 ("Runtime Error: Undeclared variable '" ++ String.mk child.name
              ++ "' in assignment at line " ++ toString nd.line
              ++ ", column " ++ toString nd.column ++ ".")
    | _ => st  -- excluded by the guard
  else errS st "Interpreter Error: Invalid AST_ASSIGNMENT node structure."

/-- `interpret_increment` (lines 208-233). -/
def interpret_increment (nd : IAst) (st : IState) : IState :=
  if h : nd.ty = .increment ∧ nd.children.length = 2 ∧
      nd.children.head?.map IAst.ty = some .identifier ∧
      (nd.children.drop 1).head?.map IAst.ty = some .intValue then
    match nd.children with
    | child :: rhs :: _ =>
        let r := evaluate_big_int_value rhs st
        match lookup_runtime_symbol r.2.table child.name with
        | some cur =>
            let t2 := add_or_update_runtime_symbol r.2.table child.name
            { r.2 with table := t2 (big_int_add cur r.1) }
        | none =>
            errS r.2 ("Runtime Error: Undeclared variable '" ++ String.mk child.name
              ++ "' in increment at line " ++ toString nd.line
              ++ ", column " ++ toString nd.column ++ ".")
    | _ => st  -- excluded by the guard
  else errS st "Interpreter Error: Invalid AST_INCREMENT node structure."

/-- `interpret_decrement` (lines 235-260). -/
def interpret_decrement (nd : IAst) (st : IState) : IState :=
  if h : nd.ty = .decrement ∧ nd.children.length = 2 ∧
      nd.children.head?.map IAst.ty = some .identifier ∧
      (nd.children.drop 1).head?.map IAst.ty = some .intValue then
    match nd.children with
    | child :: rhs :: _ =>
        let r := evaluate_big_int_value rhs st
        match lookup_runtime_symbol r.2.table child.name with
        | some cur =>
            let t2 := add_or_update_runtime_symbol r.2.table child.name
            { r.2 with table := t2 (big_int_sub cur r.1) }
        | none =>
            errS r.2 ("Runtime Error: Undeclared variable '" ++ String.mk child.name
              ++ "' in decrement at line " ++ toString nd.line
              ++ ", column " ++ toString nd.column ++ ".")
    | _ => st  -- excluded by the guard
  else errS st "Interpreter Error: Invalid AST_DECREMENT node structure."

/-- The element loop of `interpret_write_statement` (lines 263-303):
`continue` on a malformed element, print evaluated BigInts, string
literals and newlines. -/
def writeElems : List IAst → IState → IState
  | [], st => st
  | el :: rest, st =>
      let st2 :=
        if el.children.length = 1 then
          match el.children with
          | content :: _ =>
              if content.ty = .intValue then
                let r := evaluate_big_int_value content st
                { r.2 with output := r.2.output ++ [String.mk (big_int_to_string r.1)] }
              else if content.ty = .stringLiteral then
                { st with output := st.output ++ [String.mk content.strData] }
              else if content.ty = .newline then
                { st with output := st.output ++ ["\n"] }
              else errS st "Interpreter Error: Unsupported AST node type in output list."
          | [] => st  -- excluded by the length guard
        else errS st
          "Interpreter Error: Invalid AST_LIST_ELEMENT node structure within output list."
      writeElems rest st2

/-- `interpret_write_statement` (lines 263-303). -/
def interpret_write_statement (nd : IAst) (st : IState) : IState :=
  if h : nd.ty = .writeStatement ∧ nd.children.length = 1 ∧
      nd.children.head?.map IAst.ty = some .outputList then
    match nd.children with
    | ol :: _ => writeElems ol.children st
    | [] => st  -- excluded by the guard
  else errS st "Interpreter Error: Invalid AST_WRITE_STATEMENT node structure."

/-- The mutually recursive part of the interpreter, folded into one
fuel-indexed function so that it stays structurally recursive (and hence
kernel-evaluable): a job is a pending call of `interpret_statement_list`
(on a node, or already iterating its child array), `interpret_statement`,
`interpret_code_block`, or one `while` check of `interpret_loop_statement`.
`none` means out of fuel; the fuel is ample for every program considered
here and exhaustion can only truncate, never fabricate a result. -/
inductive IJob where
  | stmtListNode (nd : IAst)
  | stmtList (ns : List IAst)
  | stmt (nd : IAst)
  | block (nd : IAst)
  | loopIter (current count : BigInt) (body : IAst)

def interpRun : Nat → IJob → IState → Option IState
  | 0, _, _ => none
  | fuel + 1, job, st =>
      match job with
      | .stmtListNode nd =>
          if nd.ty = .statementList then interpRun fuel (.stmtList nd.children) st
          else some (errS st "Interpreter Error: Invalid AST_STATEMENT_LIST node structure.")
      | .stmtList [] => some st
      | .stmtList (n :: ns) =>
          match interpRun fuel (.stmt n) st with
          | none => none
          | some st2 => interpRun fuel (.stmtList ns) st2
      | .stmt nd =>
          match nd.ty with
          | .declaration => some (interpret_declaration nd st)
          | .assignment => some (interpret_assignment nd st)
          | .increment => some (interpret_increment nd st)
          | .decrement => some (interpret_decrement nd st)
          | .writeStatement => some (interpret_write_statement nd st)
          | .loopStatement =>
              -- interpret_loop_statement, lines 306-355
              match nd.loopCount, nd.loopBody with
              | [ce], [body] =>
                  let r := evaluate_big_int_value ce st
                  if r.1.sign = -1 then
                    some (errS r.2 ("Runtime Error: Loop count cannot be negative at line "
                      ++ toString nd.line ++ ", column " ++ toString nd.column
                      ++ ". Skipping loop."))
                  else if big_int_abs_compare r.1 big_int_zero = 0 then some r.2
                  else interpRun fuel (.loopIter big_int_zero r.1 body) r.2
              | _, _ =>
                  some (errS st ("Interpreter Error: Invalid AST_LOOP_STATEMENT"
                    ++ " node structure. Missing count_expr or body."))
          | _ =>
              some (errS st "Interpreter Error: Unexpected AST node type for a statement.")
      | .block nd =>
          if nd.ty = .codeBlock ∧ nd.children.length = 1 ∧
              nd.children.head?.map IAst.ty = some .statementList then
            match nd.children with
            | c :: _ => interpRun fuel (.stmtListNode c) st
            | [] => some st  -- excluded by the guard
          else some (errS st "Interpreter Error: Invalid AST_CODE_BLOCK node structure.")
      | .loopIter current count body =>
          if big_int_abs_compare current count < 0 then
            match (if body.ty = .codeBlock then interpRun fuel (.block body) st
                   else interpRun fuel (.stmt body) st) with
            | none => none
            | some st2 =>
                interpRun fuel
                  (.loopIter (big_int_add current (big_int_from_long_long 1)) count body) st2
          else some st

/-- `interpret_statement`. -/
def interpret_statement (fuel : Nat) (nd : IAst) (st : IState) : Option IState :=
  interpRun fuel (.stmt nd) st

/-- `interpret_statement_list`. -/
def interpret_statement_list (fuel : Nat) (nd : IAst) (st : IState) : Option IState :=
  interpRun fuel (.stmtListNode nd) st

/-- `interpret_program` (lines 93-114): check the root shape, start from an
empty runtime symbol table, and run the statement list. -/
def interpret_program (fuel : Nat) (root : IAst) : Option IState :=
  if root.ty = .program ∧ root.children.length = 1 ∧
      root.children.head?.map IAst.ty = some .statementList then
    match root.children with
    | c :: _ => interpret_statement_list fuel c ⟨[], [], []⟩
    | [] => some ⟨[], [], []⟩  -- excluded by the guard
  else
    some (errS ⟨[], [], []⟩
      "Interpreter Error: Invalid AST root node. Expected AST_PROGRAM with a StatementList child.")

/-- Shorthand for building an `ASTNode` with empty payloads. -/
def mkN (ty : IAstType) (children : List IAst) : IAst :=
  .node ty children [] big_int_zero [] [] [] 0 0

/-- An identifier leaf at a location. -/
def mkId (name : List Char) (line column : Int) : IAst :=
  .node .identifier [] name big_int_zero [] [] [] line column

/-- An `<int_value>` wrapper around an identifier, as built by the `NUM_ID`
production action, at a location. -/
def mkIntValId (name : List Char) (line column : Int) : IAst :=
  .node .intValue [mkId name line column] [] big_int_zero [] [] [] line column

/-- An `<int_value>` wrapper around an integer literal. -/
def mkIntValLit (v : BigInt) : IAst :=
  .node .intValue [.node .integerLiteral [] [] v [] [] [] 0 0] [] big_int_zero [] [] [] 0 0

/-- A `write` statement printing one element. -/
def mkWrite1 (content : IAst) : IAst :=
  mkN .writeStatement [mkN .outputList [mkN .listElement [content]]]

/-- A string-literal leaf. -/
def mkStrLit (sv : List Char) : IAst :=
  .node .stringLiteral [] [] big_int_zero sv [] [] 0 0

/-- The program `write x ; write "A" ;` with no declaration of `x`, the
identifier `x` at line 1, column 7. -/
def c3prog : IAst :=
  mkN .program [mkN .statementList
    [mkWrite1 (mkIntValId "x".data 1 7), mkWrite1 (mkStrLit "A".data)]]

/-- The program `number x ; x := 5 ; number x ; write x ;`, the second
(redeclaring) `number x` at line 3, column 8. -/
def c10prog : IAst :=
  mkN .program [mkN .statementList
    [mkN .declaration [mkId "x".data 1 8],
     .node .assignment [mkId "x".data 2 1, mkIntValLit (big_int_from_long_long 5)]
       [] big_int_zero [] [] [] 2 1,
     .node .declaration [mkId "x".data 3 8] [] big_int_zero [] [] [] 3 8,
     mkWrite1 (mkIntValId "x".data 4 7)]]

/-- C3 counterexample: running `write x ; write "A" ;` with `x` undeclared
does NOT halt at the first error — the undeclared-identifier error is
reported (with the line and column of the `<int_value>` node holding `x`),
`0` is substituted and printed, and the next statement still runs and
prints `A`. -/
theorem write_undeclared_reports_then_execution_continues :
    (interpret_program 8 c3prog).map (fun st => (st.output, st.errors)) =
      some (["0", "A"],
        ["Runtime Error: Undeclared variable 'x' used in expression at line 1, column 7."]) := by
  decide

/-- One step of the statement-list loop. -/
lemma interpRun_stmtList_cons (fuel : Nat) (n : IAst) (ns : List IAst) (st : IState) :
    interpRun (fuel + 1) (.stmtList (n :: ns)) st =
      match interpRun fuel (.stmt n) st with
      | none => none
      | some st2 => interpRun fuel (.stmtList ns) st2 := rfl

/-- Dispatch of a `write` statement. -/
lemma interpRun_stmt_write (fuel : Nat) (nd : IAst) (st : IState)
    (h : nd.ty = IAstType.writeStatement) :
    interpRun (fuel + 1) (.stmt nd) st = some (interpret_write_statement nd st) := by
  simp [interpRun, h]

/-- C3 amended: an undeclared identifier in an `<int_value>` makes
`evaluate_big_int_value` report the error — naming the variable and the
node's line and column — and return zero (first conjunct); and a statement
list of `write` statements always runs to completion, folding the write
effects over the state, so execution continues past the error (second
conjunct). -/
theorem undeclared_identifier_zero_substitution_and_continuation :
    (∀ (nd ch : IAst) (st : IState), nd.ty = .intValue → nd.children = [ch] →
      ch.ty = .identifier → lookup_runtime_symbol st.table ch.name = none →
      evaluate_big_int_value nd st =
        (big_int_zero, errS st ("Runtime Error: Undeclared variable '"
          ++ String.mk ch.name ++ "' used in expression at line "
          ++ toString nd.line ++ ", column " ++ toString nd.column ++ "."))) ∧
    (∀ (fuel : Nat) (ns : List IAst) (st : IState),
      (∀ n ∈ ns, n.ty = IAstType.writeStatement) → ns.length + 1 ≤ fuel →
      interpRun fuel (.stmtList ns) st =
        some (ns.foldl (fun s n => interpret_write_statement n s) st)) := by
  constructor
  · intro nd ch st h1 h2 h3 h4
    simp [evaluate_big_int_value, h1, h2, h3, h4]
  · intro fuel ns
    induction ns generalizing fuel with
    | nil =>
        intro st _ hfuel
        obtain ⟨f, rfl⟩ : ∃ f, fuel = f + 1 := ⟨fuel - 1, by omega⟩
        rfl
    | cons n ns ih =>
        intro st hty hfuel
        obtain ⟨f, rfl⟩ : ∃ f, fuel = f + 1 := ⟨fuel - 1, by omega⟩
        obtain ⟨f2, rfl⟩ : ∃ f2, f = f2 + 1 := ⟨f - 1, by simp at hfuel; omega⟩
        have hn : n.ty = IAstType.writeStatement := hty n (by simp)
        have hrest := ih (f2 + 1) (interpret_write_statement n st)
          (fun m hm => hty m (by simp [hm])) (by simp at hfuel ⊢; omega)
        rw [interpRun_stmtList_cons, interpRun_stmt_write f2 n st hn]
        simp only [hrest, List.foldl_cons]

/-- Witness for C3 amended: both conjuncts applied to the `write x` piece
of `c3prog` on the empty environment. -/
theorem undeclared_identifier_zero_substitution_and_continuation_witness :
    evaluate_big_int_value (mkIntValId "x".data 1 7) ⟨[], [], []⟩ =
      (big_int_zero, errS ⟨[], [], []⟩
        ("Runtime Error: Undeclared variable '" ++ String.mk "x".data
          ++ "' used in expression at line " ++ toString (1 : Int)
          ++ ", column " ++ toString (7 : Int) ++ ".")) ∧
    interpRun 3 (.stmtList [mkWrite1 (mkIntValId "x".data 1 7)]) ⟨[], [], []⟩ =
      some ([mkWrite1 (mkIntValId "x".data 1 7)].foldl
        (fun s n => interpret_write_statement n s) ⟨[], [], []⟩) :=
  ⟨undeclared_identifier_zero_substitution_and_continuation.1
     (mkIntValId "x".data 1 7) (mkId "x".data 1 7) ⟨[], [], []⟩
     (by decide) rfl (by decide) rfl,
   undeclared_identifier_zero_substitution_and_continuation.2
     3 [mkWrite1 (mkIntValId "x".data 1 7)] ⟨[], [], []⟩
     (by decide) (by decide)⟩

/-- C10: redeclaring an already-declared variable reports the error and
leaves the state otherwise untouched — the table (hence the existing
binding) is exactly the old one and only the error list grows (first
conjunct, for every environment); and in the program
`number x ; x := 5 ; number x ; write x ;` the redeclaration keeps the
binding `x = 5`, adds no entry, reports the error with the second
declaration's location, and the following `write` still runs and prints
`5` (second conjunct). -/
theorem redeclaration_preserves_environment_and_continues :
    (∀ (nd ch : IAst) (st : IState) (v : BigInt),
      nd.ty = .declaration → nd.children = [ch] → ch.ty = .identifier →
      lookup_runtime_symbol st.table ch.name = some v →
      interpret_declaration nd st =
        errS st ("Runtime Error: Variable '" ++ String.mk ch.name
          ++ "' already declared at line " ++ toString nd.line
          ++ ", column " ++ toString nd.column ++ ".")) ∧
    (interpret_program 8 c10prog).map
        (fun st => (st.table.map (fun e => (e.1, big_int_to_string e.2)),
          st.output, st.errors)) =
      some ([("x".data, "5".data)], ["5"],
        ["Runtime Error: Variable 'x' already declared at line 3, column 8."]) := by
  constructor
  · intro nd ch st v h1 h2 h3 h4
    simp [interpret_declaration, h1, h2, h3, h4]
  · decide

/-- Witness for C10: the redeclaration conjunct applied to the second
`number x` of `c10prog` in the environment where `x` is bound to `5`. -/
theorem redeclaration_preserves_environment_and_continues_witness :
    interpret_declaration (.node .declaration [mkId "x".data 3 8] [] big_int_zero [] [] [] 3 8)
      ⟨[("x".data, big_int_from_long_long 5)], [], ["5"]⟩ =
      errS ⟨[("x".data, big_int_from_long_long 5)], [], ["5"]⟩
        ("Runtime Error: Variable '" ++ String.mk "x".data
          ++ "' already declared at line " ++ toString (3 : Int)
          ++ ", column " ++ toString (8 : Int) ++ ".") :=
  redeclaration_preserves_environment_and_continues.1
    (.node .declaration [mkId "x".data 3 8] [] big_int_zero [] [] [] 3 8)
    (mkId "x".data 3 8) ⟨[("x".data, big_int_from_long_long 5)], [], ["5"]⟩
    (big_int_from_long_long 5) (by decide) rfl (by decide) (by decide)

/-! ## LR(1) parsing tables and parse driver (parser.c, main.c)

`build_parsing_tables` and `parse` are embedded over abstract inputs: the
subroutine composite `find_item_set_in_list(collection, goto_set(...))`
(both for the terminal shift targets and for the non-terminal GOTO phase)
is a parameter `Option Nat`-valued oracle (`none` models the C return
`-1`), and `parser_get_node_from_token` together with the semantic-action
function pointers is a parameter over an abstract node type `α`.  The
claims proved below — where conflicts are written and logged and where
`ACTION_ACCEPT` entries can live — are about the table-filling and driver
control flow itself, which is embedded verbatim, and the theorems quantify
over every value of these parameters.  Only the conflict `fprintf` lines
are modelled (one `Conflict` record per detected conflict); the trace
`printf`s are not. -/

def MAX_TERMINALS : Nat := 200

def MAX_NON_TERMINALS : Nat := 200

/-- `T_EOF = 199`, the highest terminal ID (parser.h). -/
def T_EOF : Nat := 199

/-- `NT_S_PRIME`, position 10 in the `SymbolIDs` enum (parser.h). -/
def NT_S_PRIME : Nat := 10

inductive SymbolType where
  | terminal | nonterminal
  deriving Repr, DecidableEq

/-- `GrammarSymbol`: kind, numeric ID, display name. -/
structure GrammarSymbol where
  type : SymbolType
  id : Nat
  name : String
  deriving Repr, DecidableEq

/-- A `Production`: head symbol, right-hand side, its `production_id`
field, and the `semantic_action` function pointer (abstract over the node
type; `none` models a `NULL` pointer). -/
structure Production (α : Type) where
  left_symbol : GrammarSymbol
  right_symbols : List GrammarSymbol
  production_id : Nat
  semantic_action : Option (List (Option α) → Option α)

/-- The parts of `Grammar` used by table construction and the driver. -/
structure Grammar (α : Type) where
  productions : List (Production α)
  non_terminals : List GrammarSymbol
  terminals : List GrammarSymbol

/-- `TerminalSet` membership (`set_contains`). -/
def set_contains (s : List Nat) (t : Nat) : Bool := s.contains t

/-- An `LRItem`: production, dot position, lookahead terminal set. -/
structure LRItem where
  production_id : Nat
  dot_position : Nat
  lookahead_set : List Nat
  deriving Repr, DecidableEq

/-- An `ItemSet` with its `state_id`. -/
structure ItemSet where
  state_id : Nat
  items : List LRItem
  deriving Repr, DecidableEq

/-- An `ActionEntry`: the `type` and `target_state_or_production_id`
fields folded into one constructor (`error` is the calloc default). -/
inductive Action where
  | error
  | shift (target : Nat)
  | reduce (production : Nat)
  | accept
  deriving Repr, DecidableEq

/-- One `Conflict detected at ACTION[state][terminal]` stderr record, with
the existing entry and the newly attempted one. -/
structure Conflict where
  state : Nat
  terminal : Nat
  existing : Action
  attempted : Action
  deriving Repr, DecidableEq

/-- The ACTION table (`initialize_parsing_tables` fills it with
`ACTION_ERROR`). -/
def ATable : Type := Nat → Nat → Action

/-- The GOTO table (`-1`, modelled `none`, is the initial value). -/
def GTable : Type := Nat → Nat → Option Nat

def updAT (tbl : ATable) (s t : Nat) (a : Action) : ATable :=
  fun s2 t2 => if s2 = s ∧ t2 = t then a else tbl s2 t2

def updGT (tbl : GTable) (s n : Nat) (v : Nat) : GTable :=
  fun s2 n2 => if s2 = s ∧ n2 = n then some v else tbl s2 n2

/-- The shift write of `build_parsing_tables` (parser.c 930-956): a
non-error existing entry is a logged conflict; an existing REDUCE is
overwritten by the shift, an existing SHIFT or ACCEPT is kept. -/
def applyShift (acc : ATable × List Conflict) (sid tid target : Nat) :
    ATable × List Conflict :=
  match acc.1 sid tid with
  | .error => (updAT acc.1 sid tid (.shift target), acc.2)
  | .reduce _ =>
      (updAT acc.1 sid tid (.shift target),
       acc.2 ++ [⟨sid, tid, acc.1 sid tid, .shift target⟩])
  | _ => (acc.1, acc.2 ++ [⟨sid, tid, acc.1 sid tid, .shift target⟩])

/-- The reduce write (parser.c 977-997): a non-error existing entry is a
logged conflict and is kept (shift preferred, first reduce kept). -/
def applyReduce (acc : ATable × List Conflict) (sid tid pid : Nat) :
    ATable × List Conflict :=
  match acc.1 sid tid with
  | .error => (updAT acc.1 sid tid (.reduce pid), acc.2)
  | _ => (acc.1, acc.2 ++ [⟨sid, tid, acc.1 sid tid, .reduce pid⟩])

/-- The accept write (parser.c 961-974): always at column `T_EOF`, always
overwriting, with a conflict logged when the entry was not ERROR. -/
def applyAccept (acc : ATable × List Conflict) (sid : Nat) :
    ATable × List Conflict :=
  let log2 := match acc.1 sid T_EOF with
    | .error => acc.2
    | _ => acc.2 ++ [⟨sid, T_EOF, acc.1 sid T_EOF, Action.accept⟩]
  (updAT acc.1 sid T_EOF .accept, log2)

/-- The per-item ACTION work of `build_parsing_tables` (parser.c 917-999):
a terminal after the dot is a shift into the oracle's target (the
`target_state_id == -1` stderr path skips the item); a completed `S'`
production with `T_EOF` in its lookahead writes ACCEPT at column `T_EOF`;
any other completed production writes a reduce by `p->production_id` at
every terminal column in its lookahead set. -/
def processItem (g : Grammar α) (oracle : ItemSet → GrammarSymbol → Option Nat)
    (cur : ItemSet) (acc : ATable × List Conflict) (item : LRItem) :
    ATable × List Conflict :=
  match g.productions[item.production_id]? with
  | none => acc
  | some p =>
      match p.right_symbols[item.dot_position]? with
      | some sym =>
          if sym.type = .terminal then
            match oracle cur sym with
            | none => acc
            | some target =>
                if sym.id < MAX_TERMINALS then applyShift acc cur.state_id sym.id target
                else acc
          else acc
      | none =>
          if p.left_symbol.id = NT_S_PRIME ∧ set_contains item.lookahead_set T_EOF then
            applyAccept acc cur.state_id
          else
            (List.range MAX_TERMINALS).foldl
              (fun a tid =>
                if set_contains item.lookahead_set tid then
                  applyReduce a cur.state_id tid p.production_id
                else a)
              acc

/-- The item loop over one state. -/
def processState (g : Grammar α) (oracle : ItemSet → GrammarSymbol → Option Nat)
    (acc : ATable × List Conflict) (cur : ItemSet) : ATable × List Conflict :=
  cur.items.foldl (processItem g oracle cur) acc

/-- The GOTO phase over one state (parser.c 1002-1026): for each
non-terminal, the oracle plays `goto_set` + emptiness check +
`find_item_set_in_list` (`none` for an empty set or a missing state). -/
def processGoto (g : Grammar α) (oracleNT : ItemSet → GrammarSymbol → Option Nat)
    (gt : GTable) (cur : ItemSet) : GTable :=
  g.non_terminals.foldl
    (fun gt2 NT =>
      match oracleNT cur NT with
      | none => gt2
      | some target =>
          if NT.id < MAX_NON_TERMINALS then updGT gt2 cur.state_id NT.id target
          else gt2)
    gt

/-- `build_parsing_tables`: initialize both tables, then fill them state
by state.  Returns (ACTION, GOTO, conflict log); the function has no
failure exit. -/
def build_parsing_tables (g : Grammar α) (collection : List ItemSet)
    (oracle oracleNT : ItemSet → GrammarSymbol → Option Nat) :
    ATable × GTable × List Conflict :=
  collection.foldl
    (fun acc cur =>
      let a2 := processState g oracle (acc.1, acc.2.2) cur
      let g2 := processGoto g oracleNT acc.2.1 cur
      (a2.1, g2, a2.2))
    ((fun _ _ => .error), (fun _ _ => none), [])

/-- The static EOF token `parser_current_token` returns past the input end
(`{TOKEN_EOF, "$", ...}`). -/
def eof_token : Token :=
  { type := .eofT, lexeme := "$".data, line := 0, column := 0 }

/-- The outcome of `parse`: an accepted root node (possibly `NULL`), an
error (the C function then returns `NULL` after printing the message), or
fuel exhaustion of the model (the C loop is unbounded). -/
inductive ParseResult (α : Type) where
  | accepted (root : Option α)
  | perror (msg : String)
  | outOfFuel

def ParseResult.isAccepted : ParseResult α → Bool
  | .accepted _ => true
  | _ => false

/-- The `while (!parser.has_error)` loop of `parse` (parser.c 1479-1630).
The stack holds `(state, symbol, ast_node)` entries, top first; `mkNode`
is `parser_get_node_from_token`.  One fuel unit per iteration. -/
def parse_loop (g : Grammar α) (tbl : ATable) (gtbl : GTable)
    (mkNode : Token → Option α) :
    Nat → List (Nat × Option GrammarSymbol × Option α) → List Token → ParseResult α
  | 0, _, _ => .outOfFuel
  | fuel + 1, stack, remaining =>
      let current_state := (stack.head?.map (fun e => e.1)).getD 0
      let tok := match remaining with | t :: _ => t | [] => eof_token
      let tid := tokenTypeId tok.type
      if MAX_TERMINALS ≤ tid then
        .perror "Invalid terminal symbol type encountered during parsing. Token ID out of bounds."
      else
        match tbl current_state tid with
        | .shift target =>
            match g.terminals.find? (fun ts => ts.id = tid) with
            | none => .perror "Internal error: Terminal symbol not found in grammar."
            | some tsym =>
                parse_loop g tbl gtbl mkNode fuel
                  ((target, some tsym, mkNode tok) :: stack) remaining.tail
        | .reduce pid =>
            match g.productions[pid]? with
            | none => .perror "Invalid production ID during reduction."
            | some p =>
                let rc := p.right_symbols.length
                if stack.length < rc then
                  .perror "Error: Trying to pop more items than available on stack"
                else
                  let child_nodes := ((stack.take rc).reverse).map (fun e => e.2.2)
                  let stack2 := stack.drop rc
                  let new_node : Option α :=
                    match p.semantic_action with
                    | some f => f child_nodes
                    | none =>
                        if rc = 1 then (child_nodes.head?).getD none else none
                  let state2 := (stack2.head?.map (fun e => e.1)).getD 0
                  if MAX_NON_TERMINALS ≤ p.left_symbol.id then
                    .perror "Invalid non-terminal symbol ID for GOTO table lookup"
                  else
                    match gtbl state2 p.left_symbol.id with
                    | none => .perror "GOTO table entry not found"
                    | some gs =>
                        parse_loop g tbl gtbl mkNode fuel
                          ((gs, some p.left_symbol, new_node) :: stack2) remaining
        | .accept => .accepted ((stack.head?.map (fun e => e.2.2)).getD none)
        | .error => .perror "Syntax error: unexpected token."

/-- `parse`: initialize the stack with `(0, NULL, NULL)` and run the loop. -/
def parse (g : Grammar α) (tbl : ATable) (gtbl : GTable)
    (mkNode : Token → Option α) (input : List Token) (fuel : Nat) : ParseResult α :=
  parse_loop g tbl gtbl mkNode fuel [(0, none, none)] input

/-- ACTION tables whose ACCEPT entries all sit in column `T_EOF`. -/
def acceptOnlyAtEOF (tbl : ATable) : Prop :=
  ∀ s t, t ≠ T_EOF → tbl s t ≠ Action.accept

lemma updAT_acceptOnly {tbl : ATable} (s0 t0 : Nat) (a : Action)
    (h : acceptOnlyAtEOF tbl) (ha : a ≠ Action.accept ∨ t0 = T_EOF) :
    acceptOnlyAtEOF (updAT tbl s0 t0 a) := by
  intro s t ht
  unfold updAT
  by_cases he : s = s0 ∧ t = t0
  · rw [if_pos he]
    rcases ha with ha | ha
    · exact ha
    · exact absurd (he.2.trans ha) ht
  · rw [if_neg he]; exact h s t ht

lemma applyShift_acceptOnly {acc : ATable × List Conflict} (sid tid target : Nat)
    (h : acceptOnlyAtEOF acc.1) :
    acceptOnlyAtEOF (applyShift acc sid tid target).1 := by
  unfold applyShift
  rcases heq : acc.1 sid tid with _ | k | p | _ <;> simp [heq] <;>
    first
      | exact updAT_acceptOnly sid tid _ h (Or.inl (by simp))
      | exact h

lemma applyReduce_acceptOnly {acc : ATable × List Conflict} (sid tid pid : Nat)
    (h : acceptOnlyAtEOF acc.1) :
    acceptOnlyAtEOF (applyReduce acc sid tid pid).1 := by
  unfold applyReduce
  rcases heq : acc.1 sid tid with _ | k | p | _ <;> simp [heq] <;>
    first
      | exact updAT_acceptOnly sid tid _ h (Or.inl (by simp))
      | exact h

lemma applyAccept_acceptOnly {acc : ATable × List Conflict} (sid : Nat)
    (h : acceptOnlyAtEOF acc.1) :
    acceptOnlyAtEOF (applyAccept acc sid).1 := by
  unfold applyAccept
  exact updAT_acceptOnly sid T_EOF _ h (Or.inr rfl)

lemma foldl_acceptOnly {β : Type} (f : ATable × List Conflict → β → ATable × List Conflict)
    (hf : ∀ a x, acceptOnlyAtEOF a.1 → acceptOnlyAtEOF (f a x).1) :
    ∀ (l : List β) (acc : ATable × List Conflict),
      acceptOnlyAtEOF acc.1 → acceptOnlyAtEOF (l.foldl f acc).1 := by
  intro l
  induction l with
  | nil => intro acc h; exact h
  | cons x xs ih => intro acc h; exact ih _ (hf _ _ h)

lemma processItem_acceptOnly {α : Type} (g : Grammar α)
    (oracle : ItemSet → GrammarSymbol → Option Nat) (cur : ItemSet)
    (acc : ATable × List Conflict) (item : LRItem)
    (h : acceptOnlyAtEOF acc.1) :
    acceptOnlyAtEOF (processItem g oracle cur acc item).1 := by
  unfold processItem
  rcases hp : g.productions[item.production_id]? with _ | p
  · simp only [hp]; exact h
  · simp only [hp]
    rcases hs : p.right_symbols[item.dot_position]? with _ | sym
    · simp only [hs]
      by_cases hacc : p.left_symbol.id = NT_S_PRIME ∧
          set_contains item.lookahead_set T_EOF = true
      · rw [if_pos hacc]; exact applyAccept_acceptOnly cur.state_id h
      · rw [if_neg hacc]
        refine foldl_acceptOnly _ ?_ _ _ h
        intro a tid h2
        by_cases hc : set_contains item.lookahead_set tid = true
        · rw [if_pos hc]; exact applyReduce_acceptOnly cur.state_id tid _ h2
        · rw [if_neg hc]; exact h2
    · simp only [hs]
      by_cases hterm : sym.type = SymbolType.terminal
      · rw [if_pos hterm]
        rcases ho : oracle cur sym with _ | target
        · simp only [ho]; exact h
        · simp only [ho]
          by_cases hid : sym.id < MAX_TERMINALS
          · rw [if_pos hid]; exact applyShift_acceptOnly cur.state_id sym.id target h
          · rw [if_neg hid]; exact h
      · rw [if_neg hterm]; exact h

lemma processState_acceptOnly {α : Type} (g : Grammar α)
    (oracle : ItemSet → GrammarSymbol → Option Nat)
    (acc : ATable × List Conflict) (cur : ItemSet)
    (h : acceptOnlyAtEOF acc.1) :
    acceptOnlyAtEOF (processState g oracle acc cur).1 :=
  foldl_acceptOnly _ (fun a x h2 => processItem_acceptOnly g oracle cur a x h2)
    cur.items acc h

lemma build_parsing_tables_acceptOnly {α : Type} (g : Grammar α)
    (collection : List ItemSet)
    (oracle oracleNT : ItemSet → GrammarSymbol → Option Nat) :
    acceptOnlyAtEOF (build_parsing_tables g collection oracle oracleNT).1 := by
  unfold build_parsing_tables
  have hgen : ∀ (acc : ATable × GTable × List Conflict), acceptOnlyAtEOF acc.1 →
      acceptOnlyAtEOF (collection.foldl
        (fun acc cur =>
          let a2 := processState g oracle (acc.1, acc.2.2) cur
          let g2 := processGoto g oracleNT acc.2.1 cur
          (a2.1, g2, a2.2)) acc).1 := by
    induction collection with
    | nil => intro acc h; exact h
    | cons c cs ih =>
        intro acc h
        exact ih _ (processState_acceptOnly g oracle (acc.1, acc.2.2) c h)
  exact hgen _ (by intro s t ht; simp)

lemma tokenTypeId_le (tt : TokenType) : tokenTypeId tt ≤ 20 := by
  cases tt <;> decide

lemma parse_loop_no_accept {α : Type} (g : Grammar α) (tbl : ATable) (gtbl : GTable)
    (mkNode : Token → Option α) (h : acceptOnlyAtEOF tbl) :
    ∀ (fuel : Nat) (stack : List (Nat × Option GrammarSymbol × Option α))
      (remaining : List Token),
      (parse_loop g tbl gtbl mkNode fuel stack remaining).isAccepted = false := by
  intro fuel
  induction fuel with
  | zero => intro stack remaining; rfl
  | succ f ih =>
      intro stack remaining
      simp only [parse_loop]
      have htid : tokenTypeId (match remaining with
          | t :: _ => t | [] => eof_token).type ≤ 20 := tokenTypeId_le _
      rw [if_neg (by simp only [MAX_TERMINALS]; omega)]
      rcases ha : tbl ((stack.head?.map (fun e => e.1)).getD 0)
          (tokenTypeId (match remaining with | t :: _ => t | [] => eof_token).type)
        with _ | target | pid | _
      · simp only [ha]; rfl
      · simp only [ha]
        rcases hf : g.terminals.find? (fun ts => ts.id =
            tokenTypeId (match remaining with | t :: _ => t | [] => eof_token).type)
          with _ | tsym
        · simp only [hf]; rfl
        · simp only [hf]; exact ih _ _
      · simp only [ha]
        rcases hp : g.productions[pid]? with _ | p
        · simp only [hp]; rfl
        · simp only [hp]
          by_cases hlen : stack.length < p.right_symbols.length
          · rw [if_pos hlen]; rfl
          · rw [if_neg hlen]
            by_cases hnt : MAX_NON_TERMINALS ≤ p.left_symbol.id
            · rw [if_pos hnt]; rfl
            · rw [if_neg hnt]
              rcases hg : gtbl (((stack.drop p.right_symbols.length).head?.map
                  (fun e => e.1)).getD 0) p.left_symbol.id with _ | gs
              · simp only [hg]; rfl
              · simp only [hg]; exact ih _ _
      · exact absurd ha (h _ _ (by simp only [T_EOF]; omega))

lemma updAT_other {tbl : ATable} {s0 t0 s t : Nat} (a : Action)
    (hne : ¬ (s = s0 ∧ t = t0)) : updAT tbl s0 t0 a s t = tbl s t := by
  unfold updAT; rw [if_neg hne]

lemma foldl_preserve {β : Type} (P : ATable × List Conflict → Prop)
    (f : ATable × List Conflict → β → ATable × List Conflict)
    (hf : ∀ a x, P a → P (f a x)) :
    ∀ (l : List β) (acc : ATable × List Conflict), P acc → P (l.foldl f acc) := by
  intro l
  induction l with
  | nil => intro acc h; exact h
  | cons x xs ih => intro acc h; exact ih _ (hf _ _ h)

lemma applyShift_keeps_shift {acc : ATable × List Conflict} {s t k : Nat}
    (sid tid target : Nat) (h : acc.1 s t = Action.shift k) :
    (applyShift acc sid tid target).1 s t = Action.shift k := by
  by_cases he : s = sid ∧ t = tid
  · obtain ⟨rfl, rfl⟩ := he
    unfold applyShift
    simp [h]
  · unfold applyShift
    rcases heq : acc.1 sid tid <;> simp [heq] <;>
      first
        | rw [updAT_other _ he]; exact h
        | exact h

lemma applyReduce_keeps_shift {acc : ATable × List Conflict} {s t k : Nat}
    (sid tid pid : Nat) (h : acc.1 s t = Action.shift k) :
    (applyReduce acc sid tid pid).1 s t = Action.shift k := by
  by_cases he : s = sid ∧ t = tid
  · obtain ⟨rfl, rfl⟩ := he
    unfold applyReduce
    simp [h]
  · unfold applyReduce
    rcases heq : acc.1 sid tid <;> simp [heq] <;>
      first
        | rw [updAT_other _ he]; exact h
        | exact h

lemma applyAccept_keeps_shift {acc : ATable × List Conflict} {s t k : Nat}
    (sid : Nat) (ht : t ≠ T_EOF) (h : acc.1 s t = Action.shift k) :
    (applyAccept acc sid).1 s t = Action.shift k := by
  unfold applyAccept
  show updAT acc.1 sid T_EOF Action.accept s t = Action.shift k
  rw [updAT_other _ (fun he => ht he.2)]
  exact h

lemma processItem_keeps_shift {α : Type} (g : Grammar α)
    (oracle : ItemSet → GrammarSymbol → Option Nat) (cur : ItemSet)
    (acc : ATable × List Conflict) (item : LRItem) {s t k : Nat}
    (ht : t ≠ T_EOF) (h : acc.1 s t = Action.shift k) :
    (processItem g oracle cur acc item).1 s t = Action.shift k := by
  unfold processItem
  rcases hp : g.productions[item.production_id]? with _ | p
  · simp only [hp]; exact h
  · simp only [hp]
    rcases hs : p.right_symbols[item.dot_position]? with _ | sym
    · simp only [hs]
      by_cases hacc : p.left_symbol.id = NT_S_PRIME ∧
          set_contains item.lookahead_set T_EOF = true
      · rw [if_pos hacc]; exact applyAccept_keeps_shift cur.state_id ht h
      · rw [if_neg hacc]
        refine foldl_preserve (fun a => a.1 s t = Action.shift k) _ ?_ _ _ h
        intro a tid h2
        by_cases hc : set_contains item.lookahead_set tid = true
        · rw [if_pos hc]; exact applyReduce_keeps_shift cur.state_id tid _ h2
        · rw [if_neg hc]; exact h2
    · simp only [hs]
      by_cases hterm : sym.type = SymbolType.terminal
      · rw [if_pos hterm]
        rcases ho : oracle cur sym with _ | target
        · simp only [ho]; exact h
        · simp only [ho]
          by_cases hid : sym.id < MAX_TERMINALS
          · rw [if_pos hid]; exact applyShift_keeps_shift cur.state_id sym.id target h
          · rw [if_neg hid]; exact h
      · rw [if_neg hterm]; exact h

lemma processState_keeps_shift {α : Type} (g : Grammar α)
    (oracle : ItemSet → GrammarSymbol → Option Nat)
    (acc : ATable × List Conflict) (cur : ItemSet) {s t k : Nat}
    (ht : t ≠ T_EOF) (h : acc.1 s t = Action.shift k) :
    (processState g oracle acc cur).1 s t = Action.shift k :=
  foldl_preserve (fun a => a.1 s t = Action.shift k) _
    (fun a x h2 => processItem_keeps_shift g oracle cur a x ht h2) cur.items acc h

/-- The classic ambiguous expression grammar, with the real symbol IDs
(`NT_E = 7`, `NT_S_PRIME = 10`, terminals `$ = 0`, `IDENTIFIER = 1`,
`PLUS = 19`): productions `S_PRIME -> E $`, `E -> E PLUS E`,
`E -> IDENTIFIER`. -/
def toyGrammar : Grammar Unit :=
  ⟨[⟨⟨.nonterminal, 10, "S_PRIME"⟩, [⟨.nonterminal, 7, "E"⟩, ⟨.terminal, 0, "$"⟩], 0, none⟩,
    ⟨⟨.nonterminal, 7, "E"⟩,
      [⟨.nonterminal, 7, "E"⟩, ⟨.terminal, 19, "PLUS"⟩, ⟨.nonterminal, 7, "E"⟩], 1, none⟩,
    ⟨⟨.nonterminal, 7, "E"⟩, [⟨.terminal, 1, "IDENTIFIER"⟩], 2, none⟩],
   [⟨.nonterminal, 7, "E"⟩, ⟨.nonterminal, 10, "S_PRIME"⟩],
   [⟨.terminal, 0, "$"⟩, ⟨.terminal, 1, "IDENTIFIER"⟩, ⟨.terminal, 19, "PLUS"⟩]⟩

/-- The LR(1) state after `E PLUS E`: the completed item
`E -> E PLUS E . , {$, PLUS}` together with `E -> E . PLUS E, {$, PLUS}`
— the canonical shift/reduce conflict on `PLUS`. -/
def toyConflictState : ItemSet := ⟨5, [⟨1, 3, [0, 19]⟩, ⟨1, 1, [0, 19]⟩]⟩

/-- The goto oracle for `toyConflictState`: shifting `PLUS` reaches
state 6. -/
def toyOracle : ItemSet → GrammarSymbol → Option Nat :=
  fun _ sym => if sym.id = 19 then some 6 else none

/-- C1 counterexample: running `build_parsing_tables` over the conflict
state logs the shift/reduce conflict on `PLUS` and RESOLVES it in favour
of the shift — the function returns completed tables (no exit path
exists), the conflicted cell holds the shift, and the reduce survives
only at the non-conflicted `$` column.  Conflicts are therefore neither
fatal nor left unresolved, and shift-over-reduce is applied by default. -/
theorem conflict_logged_and_resolved_to_shift_not_fatal :
    (build_parsing_tables toyGrammar [toyConflictState] toyOracle
        (fun _ _ => none)).2.2 =
      [⟨5, 19, Action.reduce 1, Action.shift 6⟩] ∧
    (build_parsing_tables toyGrammar [toyConflictState] toyOracle
        (fun _ _ => none)).1 5 19 = Action.shift 6 ∧
    (build_parsing_tables toyGrammar [toyConflictState] toyOracle
        (fun _ _ => none)).1 5 0 = Action.reduce 1 :=
  ⟨rfl, rfl, rfl⟩

/-- C1 amended: the construction's default conflict handling, for every
table state.  A shift attempt over an existing reduce overwrites it with
the shift and logs the conflict; a reduce attempt over an existing shift
keeps the shift and logs; a reduce attempt over an existing reduce keeps
the first reduce and logs; and through the processing of any further
item of any state, an ACTION cell outside the `T_EOF` column that holds a
shift keeps holding that shift. -/
theorem conflict_resolution_prefers_shift_and_logs :
    (∀ (acc : ATable × List Conflict) (sid tid target p : Nat),
        acc.1 sid tid = Action.reduce p →
        (applyShift acc sid tid target).1 sid tid = Action.shift target ∧
        (applyShift acc sid tid target).2 =
          acc.2 ++ [⟨sid, tid, Action.reduce p, Action.shift target⟩]) ∧
    (∀ (acc : ATable × List Conflict) (sid tid pid k : Nat),
        acc.1 sid tid = Action.shift k →
        (applyReduce acc sid tid pid).1 sid tid = Action.shift k ∧
        (applyReduce acc sid tid pid).2 =
          acc.2 ++ [⟨sid, tid, Action.shift k, Action.reduce pid⟩]) ∧
    (∀ (acc : ATable × List Conflict) (sid tid pid p0 : Nat),
        acc.1 sid tid = Action.reduce p0 →
        (applyReduce acc sid tid pid).1 sid tid = Action.reduce p0 ∧
        (applyReduce acc sid tid pid).2 =
          acc.2 ++ [⟨sid, tid, Action.reduce p0, Action.reduce pid⟩]) ∧
    (∀ (α : Type) (g : Grammar α) (oracle : ItemSet → GrammarSymbol → Option Nat)
        (acc : ATable × List Conflict) (cur : ItemSet) (s t k : Nat),
        t ≠ T_EOF → acc.1 s t = Action.shift k →
        (processState g oracle acc cur).1 s t = Action.shift k) := by
  refine ⟨?_, ?_, ?_, ?_⟩
  · intro acc sid tid target p h
    unfold applyShift
    simp [h, updAT]
  · intro acc sid tid pid k h
    unfold applyReduce
    simp [h]
  · intro acc sid tid pid p0 h
    unfold applyReduce
    simp [h]
  · intro α g oracle acc cur s t k ht h
    exact processState_keeps_shift g oracle acc cur ht h

/-- Witness for C1 amended: the four conjuncts applied to the toy
conflict cell. -/
theorem conflict_resolution_prefers_shift_and_logs_witness :
    ((updAT (fun _ _ => Action.error) 5 19 (Action.reduce 1), ([] : List Conflict)).1 5 19
        = Action.reduce 1 ∧
      (applyShift (updAT (fun _ _ => Action.error) 5 19 (Action.reduce 1), []) 5 19 6).1 5 19
        = Action.shift 6) ∧
    ((updAT (fun _ _ => Action.error) 5 19 (Action.shift 6), ([] : List Conflict)).1 5 19
        = Action.shift 6 ∧
      (applyReduce (updAT (fun _ _ => Action.error) 5 19 (Action.shift 6), []) 5 19 2).1 5 19
        = Action.shift 6 ∧
      (applyReduce (updAT (fun _ _ => Action.error) 5 19 (Action.reduce 1), []) 5 19 2).1 5 19
        = Action.reduce 1) ∧
    (processState toyGrammar toyOracle
        (updAT (fun _ _ => Action.error) 4 19 (Action.shift 6), []) toyConflictState).1 4 19
      = Action.shift 6 :=
  ⟨⟨by decide,
    (conflict_resolution_prefers_shift_and_logs.1
      (updAT (fun _ _ => Action.error) 5 19 (Action.reduce 1), []) 5 19 6 1 (by decide)).1⟩,
   ⟨by decide,
    (conflict_resolution_prefers_shift_and_logs.2.1
      (updAT (fun _ _ => Action.error) 5 19 (Action.shift 6), []) 5 19 2 6 (by decide)).1,
    (conflict_resolution_prefers_shift_and_logs.2.2.1
      (updAT (fun _ _ => Action.error) 5 19 (Action.reduce 1), []) 5 19 2 1 (by decide)).1⟩,
   conflict_resolution_prefers_shift_and_logs.2.2.2 Unit toyGrammar toyOracle
     (updAT (fun _ _ => Action.error) 4 19 (Action.shift 6), []) toyConflictState 4 19 6
     (by decide) (by decide)⟩

/-- C4: `parse` can never accept, so no token sequence is accepted and no
Program-rooted AST is ever returned.  `build_parsing_tables` writes
`ACTION_ACCEPT` only into column `T_EOF = 199` (first conjunct, for every
grammar, item-set collection and goto oracle); every token type the lexer
can produce has ID at most 20 (second conjunct), and that is the column
`parse` looks up; hence the driver never meets an ACCEPT entry and never
returns through the accept branch, for any table satisfying the placement
invariant (third conjunct) and in particular for the tables built by
`build_parsing_tables` on any lexer token stream (fourth conjunct). -/
theorem parse_never_reaches_accept :
    (∀ (α : Type) (g : Grammar α) (collection : List ItemSet)
        (oracle oracleNT : ItemSet → GrammarSymbol → Option Nat) (s t : Nat),
        t ≠ T_EOF →
        (build_parsing_tables g collection oracle oracleNT).1 s t ≠ Action.accept) ∧
    (∀ tt : TokenType, tokenTypeId tt < T_EOF) ∧
    (∀ (α : Type) (g : Grammar α) (tbl : ATable) (gtbl : GTable)
        (mkNode : Token → Option α) (fuel : Nat)
        (stack : List (Nat × Option GrammarSymbol × Option α))
        (remaining : List Token),
        acceptOnlyAtEOF tbl →
        (parse_loop g tbl gtbl mkNode fuel stack remaining).isAccepted = false) ∧
    (∀ (α : Type) (g : Grammar α) (collection : List ItemSet)
        (oracle oracleNT : ItemSet → GrammarSymbol → Option Nat)
        (mkNode : Token → Option α) (input : List Char) (fuel : Nat),
        (parse g (build_parsing_tables g collection oracle oracleNT).1
            (build_parsing_tables g collection oracle oracleNT).2.1 mkNode
            (lexer_run input) fuel).isAccepted = false) := by
  refine ⟨?_, ?_, ?_, ?_⟩
  · intro α g collection oracle oracleNT s t ht
    exact build_parsing_tables_acceptOnly g collection oracle oracleNT s t ht
  · intro tt
    have := tokenTypeId_le tt
    simp only [T_EOF]
    omega
  · intro α g tbl gtbl mkNode fuel stack remaining h
    exact parse_loop_no_accept g tbl gtbl mkNode h fuel stack remaining
  · intro α g collection oracle oracleNT mkNode input fuel
    exact parse_loop_no_accept g _ _ mkNode
      (build_parsing_tables_acceptOnly g collection oracle oracleNT) fuel _ _

/-- The trivial table with no entries. -/
def emptyATable : ATable := fun _ _ => Action.error

/-- Witness for C4: the general conjuncts applied to the toy grammar, the
empty table and the empty input. -/
theorem parse_never_reaches_accept_witness :
    (build_parsing_tables toyGrammar [toyConflictState] toyOracle
        (fun _ _ => none)).1 5 19 ≠ Action.accept ∧
    tokenTypeId TokenType.eofT < T_EOF ∧
    (parse_loop toyGrammar emptyATable (fun _ _ => none) (fun _ => none) 3
        [(0, none, none)] []).isAccepted = false ∧
    (parse toyGrammar
        (build_parsing_tables toyGrammar [toyConflictState] toyOracle
          (fun _ _ => none)).1
        (build_parsing_tables toyGrammar [toyConflictState] toyOracle
          (fun _ _ => none)).2.1
        (fun _ => none) (lexer_run "number x ;".data) 9).isAccepted = false :=
  ⟨parse_never_reaches_accept.1 Unit toyGrammar [toyConflictState] toyOracle
     (fun _ _ => none) 5 19 (by decide),
   parse_never_reaches_accept.2.1 TokenType.eofT,
   parse_never_reaches_accept.2.2.1 Unit toyGrammar emptyATable (fun _ _ => none)
     (fun _ => none) 3 [(0, none, none)] []
     (fun s t ht => by simp [emptyATable]),
   parse_never_reaches_accept.2.2.2 Unit toyGrammar [toyConflictState] toyOracle
     (fun _ _ => none) (fun _ => none) "number x ;".data 9⟩

end Plus
